import Mathlib

/-!
# Cerberus sensitivity-scan core: a shallow embedding in Lean 4

This file embeds the scan-orchestration core of the Cerberus sensitivity
analysis tool and proves (or refutes) the behavioural properties stated in
its specification.

Embedded components, with their Python sources:

* Grid Builder — `cerberus_sensitivity/automation/inputs.py`
  (`SensitivityInputs.from_rows`).
* Batch Planner, RunPlan variant — `cerberus_sensitivity/automation/orchestrator.py`
  (`_build_run_plan`, `_extend_plan`, `_compute_depth_chunk`) and
  `cerberus_sensitivity/automation/run_plan.py` (`RunPlan`, `chunk_depths`).
* Batch Planner, chunk-size-balancing variant —
  `cerberus_sensitivity/automation/Automation.py`
  (`_plan_chunk_sizes`, `_chunk_sequence`, `_generate_batches_from_grid`).
* Automation Bridge retry wrapper —
  `cerberus_sensitivity/automation/button_bridge_CSharp_to_py.py`
  (`_run_automation_command`, `_raise_subprocess_error`).
* Scan Orchestrator — `cerberus_sensitivity/automation/orchestrator.py`
  (`CerberusOrchestrator.run_scan`), together with the worker wrapper in
  `cerberus_sensitivity/gui/app.py` (`_start_worker`) that converts an
  exception escaping `run_scan` into a single `error` progress event.

Modelling conventions:

* Python `float` values are modelled as `ℚ` (exact arithmetic; the claims
  under study do not depend on floating-point rounding).
* The external control surface is a parameter: the result table collected
  for a planned batch is given by a function `tables : RunPlan → Except
  String (List ρ)`, where `ρ` is the (opaque) type of a result row.  A
  `.error` value models any exception raised while driving the surface for
  that batch (bridge failure, empty table, ...): in the Python code all
  such operations happen before the batch's row loop, so they are
  trace-equivalent to a failure at table collection.
* `threading.Event.is_set` is modelled by a function `cancel : ℕ → Bool`
  sampled once per call, in program order: the `n`-th call of `is_set`
  during a scan returns `cancel n`.
* Calls made against the external surface are recorded in an explicit
  operation list (`SurfaceOp`), so that "touches the surface" is a
  provable statement.
-/

namespace Cerberus

open List

/-- The two operating modes (`RIH_MODE`/`POOH_MODE` in `orchestrator.py`). -/
inductive Mode where
  | RIH
  | POOH
deriving DecidableEq, Repr

/-- One raw input row (`SensitivityInputRow` in `inputs.py`).  A `none`
field models a missing/blank/non-numeric value (already normalised away by
`_maybe_float`/`_coerce_row`).  The `sleeve_number` field never reaches the
scan core and is omitted. -/
structure SensitivityInputRow where
  pipe_fluid_density : Option ℚ := none
  depth : Option ℚ := none
  stretch_foe_rih : Option ℚ := none
  stretch_foe_pooh : Option ℚ := none
deriving DecidableEq, Repr

/-- The parameter grid (`SensitivityInputs` in `inputs.py`). -/
structure SensitivityInputs where
  pipe_fluid_densities : List ℚ := []
  depths : List ℚ := []
  stretch_foe_rih : List ℚ := []
  stretch_foe_pooh : List ℚ := []
deriving DecidableEq, Repr

/-- `append_unique` from `SensitivityInputs.from_rows`: append `value` to
`target` unless it is `None` or already present. -/
def appendUnique (target : List ℚ) (value : Option ℚ) : List ℚ :=
  match value with
  | none => target
  | some v => if v ∈ target then target else target ++ [v]

/-- The row loop of `SensitivityInputs.from_rows`: one pass over the rows,
extending the four accumulator lists with `append_unique`. -/
def fromRowsAux (rows : List SensitivityInputRow) (acc : List ℚ × List ℚ × List ℚ × List ℚ) :
    List ℚ × List ℚ × List ℚ × List ℚ :=
  rows.foldl
    (fun acc row =>
      (appendUnique acc.1 row.pipe_fluid_density,
       appendUnique acc.2.1 row.depth,
       appendUnique acc.2.2.1 row.stretch_foe_rih,
       appendUnique acc.2.2.2 row.stretch_foe_pooh))
    acc

/-- Python's `sorted` on numeric values (ascending). -/
def pySorted (l : List ℚ) : List ℚ :=
  List.insertionSort (· ≤ ·) l

/-- `SensitivityInputs.from_rows`: deduplicate each dimension (first-seen
order) and return each value list ascending-sorted. -/
def SensitivityInputs.from_rows (rows : List SensitivityInputRow) : SensitivityInputs :=
  let acc := fromRowsAux rows ([], [], [], [])
  { pipe_fluid_densities := pySorted acc.1
    depths := pySorted acc.2.1
    stretch_foe_rih := pySorted acc.2.2.1
    stretch_foe_pooh := pySorted acc.2.2.2 }

/-! ## RunPlan batch planner (`orchestrator.py` + `run_plan.py`) -/

/-- `MAX_ITERATIONS_PER_RUN` in `orchestrator.py`: the fixed capacity bound
of the RunPlan planner. -/
def MAX_ITERATIONS_PER_RUN : ℕ := 200

/-- `RunPlan` from `run_plan.py`: one planned batch. -/
structure RunPlan where
  mode : Mode
  depth_values : List ℚ
  include_pipe_density : Bool
  include_force_on_end : Bool
  combo_count : ℕ
  offset : ℕ
deriving DecidableEq, Repr

/-- `RunPlan.end_offset`. -/
def RunPlan.end_offset (p : RunPlan) : ℕ :=
  p.offset + p.combo_count

/-- Chunking core shared by `chunk_depths` (`run_plan.py`): successive
slices `l[i : i + c]`.  Recursion is driven by an explicit fuel equal to
the list length, which suffices for any chunk size `c ≥ 1`; `chunk_depths`
raises for `c ≤ 0` and is never called that way (see `chunk_depths`). -/
def chunksAux (c : ℕ) : ℕ → List ℚ → List (List ℚ)
  | 0, _ => []
  | _, [] => []
  | fuel + 1, l => l.take c :: chunksAux c fuel (l.drop c)

/-- `chunk_depths` from `run_plan.py`:
`[depths[i : i + chunk_size] for i in range(0, len(depths), chunk_size)]`.
The Python function raises `ValueError` for `chunk_size ≤ 0`; its only
caller (`_extend_plan`) always passes a chunk size `≥ 1`. -/
def chunk_depths (depths : List ℚ) (chunk_size : ℕ) : List (List ℚ) :=
  chunksAux chunk_size depths.length depths

/-- The `while combos_per_depth * chunk > MAX_ITERATIONS_PER_RUN and chunk > 1`
loop of `_compute_depth_chunk`, counting `chunk` down from `depth_count`. -/
def chunkLoop (combos_per_depth : ℕ) : ℕ → ℕ
  | 0 => 0
  | c + 1 =>
    if combos_per_depth * (c + 1) > MAX_ITERATIONS_PER_RUN ∧ c + 1 > 1 then
      chunkLoop combos_per_depth c
    else c + 1

/-- `_compute_depth_chunk` from `orchestrator.py`. -/
def computeDepthChunk (depth_count density_count foe_count : ℕ) : ℕ :=
  if depth_count = 0 then 0
  else
    let combos_per_depth := density_count * foe_count
    if combos_per_depth = 0 then depth_count
    else max 1 (chunkLoop combos_per_depth depth_count)

/-- The `for index, chunk in enumerate(depth_chunks)` loop of
`_extend_plan`: append one `RunPlan` per depth chunk, accumulating the
global offset. -/
def extendPlanAux (mode : Mode) (nd nf : ℕ) :
    List (List ℚ) → ℕ → ℕ → List RunPlan × ℕ
  | [], _, offset => ([], offset)
  | chunk :: rest, index, offset =>
    let combo_count := nd * nf * chunk.length
    let (tail, final) := extendPlanAux mode nd nf rest (index + 1) (offset + combo_count)
    ({ mode := mode
       depth_values := chunk
       include_pipe_density := index = 0
       include_force_on_end := index = 0
       combo_count := combo_count
       offset := offset } :: tail, final)

/-- `_extend_plan` from `orchestrator.py`. -/
def extendPlan (plan : List RunPlan) (offset : ℕ) (inputs : SensitivityInputs)
    (mode : Mode) : List RunPlan × ℕ :=
  let foe_values :=
    if mode = Mode.RIH then inputs.stretch_foe_rih else inputs.stretch_foe_pooh
  let chunk_size :=
    computeDepthChunk inputs.depths.length inputs.pipe_fluid_densities.length
      foe_values.length
  let depth_chunks :=
    if inputs.depths.isEmpty then [] else chunk_depths inputs.depths chunk_size
  let (new_plans, final) :=
    extendPlanAux mode inputs.pipe_fluid_densities.length foe_values.length
      depth_chunks 0 offset
  (plan ++ new_plans, final)

/-- `_build_run_plan` from `orchestrator.py`: RIH batches first (if the
densities, RIH force-on-end and depths lists are all non-empty), then POOH
batches. -/
def buildRunPlan (inputs : SensitivityInputs) : List RunPlan :=
  let step1 :=
    if inputs.pipe_fluid_densities.isEmpty || inputs.stretch_foe_rih.isEmpty
        || inputs.depths.isEmpty then
      (([] : List RunPlan), 0)
    else extendPlan [] 0 inputs Mode.RIH
  let step2 :=
    if inputs.pipe_fluid_densities.isEmpty || inputs.stretch_foe_pooh.isEmpty
        || inputs.depths.isEmpty then
      step1
    else extendPlan step1.1 step1.2 inputs Mode.POOH
  step2.1

/-- `run_plan[-1].end_offset` (`total_rows` in `run_scan`), or `0` for an
empty plan (that case raises before `total_rows` is computed). -/
def totalRows (plan : List RunPlan) : ℕ :=
  (plan.getLast?.map RunPlan.end_offset).getD 0

/-- The mode's force-on-end value list (`foe_values` in `_extend_plan`). -/
def modeFoe (inputs : SensitivityInputs) (mode : Mode) : List ℚ :=
  if mode = Mode.RIH then inputs.stretch_foe_rih else inputs.stretch_foe_pooh

/-- The depth chunks a mode is split into (`depth_chunks` in `_extend_plan`). -/
def modeChunks (inputs : SensitivityInputs) (mode : Mode) : List (List ℚ) :=
  if inputs.depths.isEmpty then []
  else
    chunk_depths inputs.depths
      (computeDepthChunk inputs.depths.length inputs.pipe_fluid_densities.length
        (modeFoe inputs mode).length)

/-- The batches `_extend_plan` appends for a mode, starting at `offset`. -/
def modePlans (inputs : SensitivityInputs) (mode : Mode) (offset : ℕ) :
    List RunPlan :=
  (extendPlanAux mode inputs.pipe_fluid_densities.length (modeFoe inputs mode).length
      (modeChunks inputs mode) 0 offset).1

/-- The global offset after `_extend_plan` for a mode, starting at `offset`. -/
def modeFinal (inputs : SensitivityInputs) (mode : Mode) (offset : ℕ) : ℕ :=
  (extendPlanAux mode inputs.pipe_fluid_densities.length (modeFoe inputs mode).length
      (modeChunks inputs mode) 0 offset).2

/-- The guard of `_build_run_plan` for RIH batches. -/
def rihEnabled (inputs : SensitivityInputs) : Bool :=
  !(inputs.pipe_fluid_densities.isEmpty || inputs.stretch_foe_rih.isEmpty
      || inputs.depths.isEmpty)

/-- The guard of `_build_run_plan` for POOH batches. -/
def poohEnabled (inputs : SensitivityInputs) : Bool :=
  !(inputs.pipe_fluid_densities.isEmpty || inputs.stretch_foe_pooh.isEmpty
      || inputs.depths.isEmpty)

/-! ## Chunk-size-balancing batch planner (`Automation.py`) -/

/-- `ParameterGrid` from `Automation.py`. -/
structure ParameterGrid where
  densities : List ℚ
  depths : List ℚ
  wobs : List ℚ
deriving DecidableEq, Repr

/-- `ParameterGrid.sample_count`. -/
def ParameterGrid.sample_count (g : ParameterGrid) : ℕ :=
  g.densities.length * g.depths.length * g.wobs.length

/-- `PlannedBatch` from `Automation.py`; `parameters` is kept as the three
chunk lists, `combinations` as the realised cartesian product. -/
structure PlannedBatch where
  density_values : List ℚ
  depth_values : List ℚ
  wob_values : List ℚ
  combinations : List (ℚ × ℚ × ℚ)
deriving DecidableEq, Repr

/-- Stable descending insertion used to model
`sorted(lengths.items(), key=lambda item: item[1], reverse=True)`:
an element is placed after every already-placed element of greater or
equal key, which is exactly Python's stable descending sort when elements
are inserted in original order. -/
def insertDesc (x : String × ℕ) : List (String × ℕ) → List (String × ℕ)
  | [] => [x]
  | y :: ys => if x.2 ≤ y.2 then y :: insertDesc x ys else x :: y :: ys

/-- Python's stable `sorted(..., reverse=True)` by length. -/
def sortDesc (l : List (String × ℕ)) : List (String × ℕ) :=
  l.foldl (fun acc x => insertDesc x acc) []

/-- The assignment loop of `_plan_chunk_sizes`: walk the dimensions in
descending-size order, giving each the largest chunk `≤ min(length,
max_batch_size // product_of_assigned_chunks)` (with a floor of `1`).
`product_assigned` is always `≥ 1`, so the Python guard
`if product_assigned else max_batch_size` never takes its `else` branch.
The Python function raises for a dimension of length `0`; its only caller
(`_generate_batches_from_grid`) has already returned when any dimension is
empty, so every length reaching this loop is positive. -/
def assignChunks (max_batch_size : ℕ) : List (String × ℕ) → ℕ → List (String × ℕ)
  | [], _ => []
  | (name, length) :: rest, product_assigned =>
    let allowed0 := max_batch_size / product_assigned
    let allowed := if allowed0 = 0 then 1 else allowed0
    let c := min length allowed
    (name, c) :: assignChunks max_batch_size rest (product_assigned * c)

/-- `_plan_chunk_sizes` from `Automation.py`. -/
def planChunkSizes (lengths : List (String × ℕ)) (max_batch_size : ℕ) :
    List (String × ℕ) :=
  assignChunks max_batch_size (sortDesc lengths) 1

/-- `_chunk_sequence` from `Automation.py`: whole list if it already fits
in one chunk (note: this branch also returns `[[]]` for an empty input),
otherwise successive slices. -/
def chunkSequence (values : List ℚ) (chunk_size : ℕ) : List (List ℚ) :=
  if values.length ≤ chunk_size then [values]
  else chunksAux chunk_size values.length values

/-- `itertools.product(density_values, depth_values, wob_values)`: the
cartesian product with density outermost and wob fastest-varying. -/
def product3 (ds zs ws : List ℚ) : List (ℚ × ℚ × ℚ) :=
  ds.flatMap fun d => zs.flatMap fun z => ws.map fun w => (d, z, w)

/-- `_generate_batches_from_grid` from `Automation.py`. -/
def generateBatchesFromGrid (grid : ParameterGrid) (max_batch_size : ℕ) :
    List PlannedBatch :=
  if grid.sample_count = 0 then []
  else
    let lengths :=
      [("density", grid.densities.length), ("depth", grid.depths.length),
       ("wob", grid.wobs.length)]
    let chunk_sizes := planChunkSizes lengths max_batch_size
    let density_chunks :=
      chunkSequence grid.densities ((chunk_sizes.lookup "density").getD 1)
    let depth_chunks :=
      chunkSequence grid.depths ((chunk_sizes.lookup "depth").getD 1)
    let wob_chunks :=
      chunkSequence grid.wobs ((chunk_sizes.lookup "wob").getD 1)
    density_chunks.flatMap fun density_values =>
      depth_chunks.flatMap fun depth_values =>
        wob_chunks.flatMap fun wob_values =>
          if density_values.isEmpty || depth_values.isEmpty || wob_values.isEmpty then
            []
          else
            let combinations := product3 density_values depth_values wob_values
            if combinations.isEmpty then []
            else
              [{ density_values := density_values
                 depth_values := depth_values
                 wob_values := wob_values
                 combinations := combinations }]

/-! ## Automation Bridge retry wrapper (`button_bridge_CSharp_to_py.py`) -/

/-- A transient subprocess failure: `subprocess.TimeoutExpired` or
`subprocess.CalledProcessError`, with the captured diagnostic streams.
The `cmd` attribute (used only for the optional `Command:` detail line) is
not modelled. -/
inductive SubprocessFailure where
  | timeout (timeoutSecs : ℕ) (stdout stderr : String)
  | exit (returncode : ℤ) (stdout stderr : String)
deriving DecidableEq, Repr

/-- Python's `str.strip()` on a character list. -/
def stripChars (l : List Char) : List Char :=
  ((l.dropWhile Char.isWhitespace).reverse.dropWhile Char.isWhitespace).reverse

/-- Python's `str.strip()`. -/
def pyStrip (s : String) : String :=
  ⟨stripChars s.data⟩

/-- The message assembly of `_raise_subprocess_error`: base message plus
the non-empty stripped diagnostic blocks (the optional `Command:` line is
not modelled). -/
def raiseSubprocessError (action button_key : String) (exc : SubprocessFailure) :
    String :=
  let (base_message, stdout, stderr) :=
    match exc with
    | .timeout t out err =>
      ("Timed out trying to " ++ action ++ " '" ++ button_key ++ "' after "
         ++ toString t ++ " seconds.", out, err)
    | .exit code out err =>
      ("Failed to " ++ action ++ " '" ++ button_key ++ "' (exit code "
         ++ toString code ++ ").", out, err)
  let stdout_text := pyStrip stdout
  let stderr_text := pyStrip stderr
  let details_parts :=
    (if stdout_text = "" then [] else ["stdout:\n" ++ stdout_text])
      ++ (if stderr_text = "" then [] else ["stderr:\n" ++ stderr_text])
  let details :=
    if details_parts.isEmpty then "No additional output captured."
    else String.intercalate "\n\n" details_parts
  base_message ++ "\n" ++ details

/-- The `while True` retry loop of `_run_automation_command`.  `attempts i`
is the outcome of the `i`-th `subprocess.run` call (0-based); the second
component of the result collects the back-off sleeps
`min(2.0, 0.5 * attempt)` performed between attempts.  The fuel is the
number of attempts still allowed including the current one
(`max_attempts - attempt`). -/
def runCmdAux {R : Type} (attempts : ℕ → Except SubprocessFailure R)
    (action button_key : String) : ℕ → ℕ → Except String R × List ℚ
  | i, 0 =>
    match attempts i with
    | .ok r => (.ok r, [])
    | .error exc => (.error (raiseSubprocessError action button_key exc), [])
  | i, fuel + 1 =>
    match attempts i with
    | .ok r => (.ok r, [])
    | .error exc =>
      if fuel = 0 then
        (.error (raiseSubprocessError action button_key exc), [])
      else
        let wait := min 2 ((1 / 2 : ℚ) * (i + 1))
        let rest := runCmdAux attempts action button_key (i + 1) fuel
        (rest.1, wait :: rest.2)

/-- `_run_automation_command` from `button_bridge_CSharp_to_py.py` with its
default `max_attempts = 2`, generic in the per-attempt outcome. -/
def runAutomationCommand {R : Type} (attempts : ℕ → Except SubprocessFailure R)
    (action button_key : String) (max_attempts : ℕ) : Except String R × List ℚ :=
  runCmdAux attempts action button_key 0 max_attempts

/-! ## Scan Orchestrator (`orchestrator.py` `run_scan` + GUI worker) -/

/-- One progress event on the channel.  A `row` payload carries the mode
tag (`row_payload = {"mode": plan.mode, **row}`) and the opaque row data. -/
inductive Event (ρ : Type) where
  | init (total_rows : ℕ)
  | row (global_index : ℕ) (payload : Mode × ρ)
  | done
  | error (message : String)
deriving DecidableEq, Repr

/-- One operation against the external control surface, at the granularity
of the helper functions of `orchestrator.py`. -/
inductive SurfaceOp where
  | openSensitivityAnalysis
  | loadTemplate (name : String)
  | configureParametersForMode (m : Mode)
  | configureOutputsForMode (m : Mode)
  | openParameterMatrix
  | selectParameterRow (caption : String)
  | clearValueList
  | setAndAddValue (v : ℚ)
  | confirmValueList
  | closeParameterMatrix
  | calculate
  | collectTable
deriving DecidableEq, Repr

/-- `_update_parameter_values` from `orchestrator.py`: returns the surface
operations performed and the updated identity cache.  `useCache = false`
models the call sites that pass `cache=None` (the force-on-end lists).
The value filter `[value for value in values if value is not None]` is a
no-op here because the embedded value lists contain no `None`. -/
def updateParameterValues (caption : String) (values : List ℚ) (useCache : Bool)
    (cache : List (String × List ℚ)) :
    List SurfaceOp × List (String × List ℚ) :=
  if values.isEmpty then
    ([], if useCache then cache.filter (fun kv => kv.1 ≠ caption) else cache)
  else if useCache && (cache.lookup caption == some values) then
    ([], cache)
  else
    ([SurfaceOp.selectParameterRow caption, SurfaceOp.clearValueList]
       ++ values.map SurfaceOp.setAndAddValue ++ [SurfaceOp.confirmValueList],
     if useCache then (caption, values) :: cache.filter (fun kv => kv.1 ≠ caption)
     else cache)

/-- The caption used for the mode's force-on-end parameter row. -/
def foeCaption (m : Mode) : String :=
  match m with
  | Mode.RIH => "Force on End - RIH"
  | Mode.POOH => "Force on End - POOH"

/-- Orchestrator-local mutable state of `run_scan`, threaded through the
batch loop: emitted events, performed surface operations, per-mode
accumulated rows (`rih_frames`/`pooh_frames`, flattened), the number of
`cancel_event.is_set()` samples taken so far, the current mode, and the
parameter-value identity cache. -/
structure ScanState (ρ : Type) where
  events : List (Event ρ)
  ops : List SurfaceOp
  rih_rows : List (ℕ × ρ)
  pooh_rows : List (ℕ × ρ)
  checks : ℕ
  current_mode : Option Mode
  cache : List (String × List ℚ)
deriving Repr

/-- The row loop of `run_scan` (lines 129-138): walk the collected table
rows, skipping global indices below `start_index`, sampling the
cancellation flag once per non-skipped row and stopping on the first set
sample.  Returns the rows kept (global index paired with payload) and the
updated sample counter. -/
def emitRows {ρ : Type} (start_index offset : ℕ) (cancel : ℕ → Bool) :
    List ρ → ℕ → ℕ → List (ℕ × ρ) × ℕ
  | [], _, checks => ([], checks)
  | r :: rest, idx, checks =>
    let global_index := offset + idx
    if global_index < start_index then
      emitRows start_index offset cancel rest (idx + 1) checks
    else if cancel checks then ([], checks + 1)
    else
      let (ps, checks') := emitRows start_index offset cancel rest (idx + 1) (checks + 1)
      ((global_index, r) :: ps, checks')

/-- The surface interaction of one executed batch, before the row loop
(lines 107-126 of `orchestrator.py`): the mode reconfiguration on a mode
change, opening the parameter matrix, the three value-list updates (depth
always; density and force-on-end only when the reload flags are set; the
force-on-end update bypasses the identity cache), closing the matrix, and
the calculate/collect pair.  Returns the operations performed, the new
current mode and the new cache. -/
def applyBatchSurface (inputs : SensitivityInputs) (plan : RunPlan)
    (current_mode : Option Mode) (cache : List (String × List ℚ)) :
    List SurfaceOp × Option Mode × List (String × List ℚ) :=
  let (mode_ops, mode') :=
    if some plan.mode ≠ current_mode then
      ([SurfaceOp.configureParametersForMode plan.mode,
        SurfaceOp.configureOutputsForMode plan.mode], some plan.mode)
    else ([], current_mode)
  let (depth_ops, cache1) :=
    updateParameterValues "BHA Depth" plan.depth_values true cache
  let (density_ops, cache2) :=
    if plan.include_pipe_density then
      updateParameterValues "Pipe Fluid Density" inputs.pipe_fluid_densities
        true cache1
    else ([], cache1)
  let foe_values :=
    if plan.mode = Mode.RIH then inputs.stretch_foe_rih
    else inputs.stretch_foe_pooh
  let (foe_ops, cache3) :=
    if plan.include_force_on_end then
      updateParameterValues (foeCaption plan.mode) foe_values false cache2
    else ([], cache2)
  (mode_ops ++ [SurfaceOp.openParameterMatrix] ++ depth_ops ++ density_ops
     ++ foe_ops
     ++ [SurfaceOp.closeParameterMatrix, SurfaceOp.calculate,
         SurfaceOp.collectTable],
   mode', cache3)

/-- The `for plan in run_plan` loop of `run_scan` (lines 101-146).
Returns the final state and `some message` when an exception was raised
while executing a batch (to be converted into an `error` event by the
caller, mirroring the GUI worker). -/
def scanLoop {ρ : Type} (inputs : SensitivityInputs) (start_index : ℕ)
    (tables : RunPlan → Except String (List ρ)) (cancel : ℕ → Bool) :
    List RunPlan → ScanState ρ → ScanState ρ × Option String
  | [], st => (st, none)
  | plan :: rest, st =>
    if cancel st.checks then ({ st with checks := st.checks + 1 }, none)
    else
      let st := { st with checks := st.checks + 1 }
      if start_index ≥ plan.end_offset then
        scanLoop inputs start_index tables cancel rest st
      else
        let surf := applyBatchSurface inputs plan st.current_mode st.cache
        let st :=
          { st with
            ops := st.ops ++ surf.1, current_mode := surf.2.1, cache := surf.2.2 }
        match tables plan with
        | .error msg => (st, some msg)
        | .ok [] => (st, some "Sensitivity table did not return any data.")
        | .ok table_rows =>
          let (new_rows, checks') :=
            emitRows start_index plan.offset cancel table_rows 0 st.checks
          let st :=
            { st with
              events :=
                st.events
                  ++ new_rows.map (fun (gr : ℕ × ρ) => Event.row gr.1 (plan.mode, gr.2)),
              checks := checks' }
          if cancel st.checks then ({ st with checks := st.checks + 1 }, none)
          else
            let st := { st with checks := st.checks + 1 }
            let st :=
              if new_rows.isEmpty then st
              else
                match plan.mode with
                | Mode.RIH => { st with rih_rows := st.rih_rows ++ new_rows }
                | Mode.POOH => { st with pooh_rows := st.pooh_rows ++ new_rows }
            scanLoop inputs start_index tables cancel rest st

/-- The observable outcome of one scan: the progress-channel trace, the
surface operations performed, and the per-mode accumulated output rows. -/
structure ScanOutcome (ρ : Type) where
  events : List (Event ρ)
  ops : List SurfaceOp
  rih_rows : List (ℕ × ρ)
  pooh_rows : List (ℕ × ρ)
deriving Repr

/-- `CerberusOrchestrator.run_scan` (lines 68-152 of `orchestrator.py`)
composed with the GUI worker wrapper (`app.py` `_start_worker`): an
exception escaping `run_scan` — including the pre-`Init` "no valid
combinations" `ValueError` — becomes a single trailing `error` event. -/
def runScan {ρ : Type} (rows : List SensitivityInputRow) (start_index : ℕ)
    (tables : RunPlan → Except String (List ρ)) (cancel : ℕ → Bool) :
    ScanOutcome ρ :=
  let inputs := SensitivityInputs.from_rows rows
  let run_plan := buildRunPlan inputs
  if run_plan.isEmpty then
    { events :=
        [Event.error
            "No valid Cerberus sensitivity combinations were detected. Check that density, depth, and FOE columns contain numeric values."]
      ops := [], rih_rows := [], pooh_rows := [] }
  else
    let total_rows := totalRows run_plan
    if start_index ≥ total_rows then
      { events := [Event.init total_rows, Event.done]
        ops := [], rih_rows := [], pooh_rows := [] }
    else
      let st0 : ScanState ρ :=
        { events := [Event.init total_rows]
          ops := [SurfaceOp.openSensitivityAnalysis, SurfaceOp.loadTemplate "auto"]
          rih_rows := [], pooh_rows := [], checks := 0, current_mode := none
          cache := [] }
      let (stF, failure) := scanLoop inputs start_index tables cancel run_plan st0
      { events :=
          stF.events
            ++ [match failure with
                | some msg => Event.error msg
                | none => Event.done]
        ops := stF.ops
        rih_rows := stF.rih_rows
        pooh_rows := stF.pooh_rows }

/-- The global indices of the `row` events of a trace, in emission order. -/
def rowIndices {ρ : Type} (events : List (Event ρ)) : List ℕ :=
  events.filterMap fun e =>
    match e with
    | .row i _ => some i
    | _ => none

/-- The output collection accumulated for a mode. -/
def ScanOutcome.modeRows {ρ : Type} (o : ScanOutcome ρ) (m : Mode) : List (ℕ × ρ) :=
  match m with
  | Mode.RIH => o.rih_rows
  | Mode.POOH => o.pooh_rows

/-! ## Grid Builder lemmas -/

/-- One dimension's accumulator fold, extracted from the row loop. -/
def foldUnique (f : SensitivityInputRow → Option ℚ) (rows : List SensitivityInputRow)
    (acc : List ℚ) : List ℚ :=
  rows.foldl (fun t r => appendUnique t (f r)) acc

theorem fromRowsAux_eq (rows : List SensitivityInputRow)
    (acc : List ℚ × List ℚ × List ℚ × List ℚ) :
    fromRowsAux rows acc =
      (foldUnique (·.pipe_fluid_density) rows acc.1,
       foldUnique (·.depth) rows acc.2.1,
       foldUnique (·.stretch_foe_rih) rows acc.2.2.1,
       foldUnique (·.stretch_foe_pooh) rows acc.2.2.2) := by
  induction rows generalizing acc with
  | nil => rfl
  | cons r rest ih =>
    simpa [fromRowsAux, foldUnique, List.foldl_cons] using
      ih (appendUnique acc.1 r.pipe_fluid_density,
          appendUnique acc.2.1 r.depth,
          appendUnique acc.2.2.1 r.stretch_foe_rih,
          appendUnique acc.2.2.2 r.stretch_foe_pooh)

theorem mem_appendUnique (t : List ℚ) (o : Option ℚ) (v : ℚ) :
    v ∈ appendUnique t o ↔ v ∈ t ∨ o = some v := by
  cases o with
  | none => simp [appendUnique]
  | some w =>
    by_cases hw : w ∈ t
    · simp only [appendUnique, if_pos hw]
      constructor
      · exact fun h => Or.inl h
      · rintro (h | h)
        · exact h
        · cases h; exact hw
    · simp only [appendUnique, if_neg hw, List.mem_append, List.mem_singleton]
      constructor
      · rintro (h | h)
        · exact Or.inl h
        · exact Or.inr (by rw [h])
      · rintro (h | h)
        · exact Or.inl h
        · cases h; exact Or.inr rfl

theorem nodup_appendUnique (t : List ℚ) (o : Option ℚ) (h : t.Nodup) :
    (appendUnique t o).Nodup := by
  cases o with
  | none => exact h
  | some w =>
    by_cases hw : w ∈ t
    · simpa [appendUnique, if_pos hw] using h
    · simp only [appendUnique, if_neg hw]
      refine List.Nodup.append h (List.nodup_singleton w) ?_
      intro x hx hxw
      rcases List.mem_singleton.mp hxw with rfl
      exact hw hx

theorem mem_foldUnique (f : SensitivityInputRow → Option ℚ)
    (rows : List SensitivityInputRow) (acc : List ℚ) (v : ℚ) :
    v ∈ foldUnique f rows acc ↔ v ∈ acc ∨ ∃ r ∈ rows, f r = some v := by
  induction rows generalizing acc with
  | nil => simp [foldUnique]
  | cons r rest ih =>
    simp only [foldUnique, List.foldl_cons] at *
    rw [ih (appendUnique acc (f r)), mem_appendUnique]
    constructor
    · rintro ((h | h) | ⟨w, hw, hfw⟩)
      · exact Or.inl h
      · exact Or.inr ⟨r, by simp, h⟩
      · exact Or.inr ⟨w, by simp [hw], hfw⟩
    · rintro (h | ⟨w, hw, hfw⟩)
      · exact Or.inl (Or.inl h)
      · rcases List.mem_cons.mp hw with h | h
        · exact Or.inl (Or.inr (h ▸ hfw))
        · exact Or.inr ⟨w, h, hfw⟩

theorem nodup_foldUnique (f : SensitivityInputRow → Option ℚ)
    (rows : List SensitivityInputRow) (acc : List ℚ) (h : acc.Nodup) :
    (foldUnique f rows acc).Nodup := by
  induction rows generalizing acc with
  | nil => exact h
  | cons r rest ih =>
    simp only [foldUnique, List.foldl_cons]
    exact ih (appendUnique acc (f r)) (nodup_appendUnique acc (f r) h)

theorem pySorted_sorted (l : List ℚ) : (pySorted l).Sorted (· ≤ ·) :=
  List.sorted_insertionSort _ l

theorem pySorted_perm (l : List ℚ) : (pySorted l).Perm l :=
  List.perm_insertionSort _ l

theorem pySorted_nodup (l : List ℚ) (h : l.Nodup) : (pySorted l).Nodup :=
  (pySorted_perm l).nodup_iff.mpr h

/-- The sorted deduplication of one dimension depends only on the multiset
of input rows. -/
theorem pySorted_foldUnique_perm_invariant (f : SensitivityInputRow → Option ℚ)
    (rows₁ rows₂ : List SensitivityInputRow) (hperm : rows₁.Perm rows₂) :
    pySorted (foldUnique f rows₁ []) = pySorted (foldUnique f rows₂ []) := by
  have h₁ := nodup_foldUnique f rows₁ [] List.nodup_nil
  have h₂ := nodup_foldUnique f rows₂ [] List.nodup_nil
  have hmem : ∀ v, v ∈ foldUnique f rows₁ [] ↔ v ∈ foldUnique f rows₂ [] := by
    intro v
    rw [mem_foldUnique, mem_foldUnique]
    simp only [List.not_mem_nil, false_or]
    constructor
    · rintro ⟨r, hr, hfr⟩; exact ⟨r, hperm.mem_iff.mp hr, hfr⟩
    · rintro ⟨r, hr, hfr⟩; exact ⟨r, hperm.mem_iff.mpr hr, hfr⟩
  have hp : (foldUnique f rows₁ []).Perm (foldUnique f rows₂ []) :=
    (List.perm_ext_iff_of_nodup h₁ h₂).mpr hmem
  exact List.eq_of_perm_of_sorted
    ((pySorted_perm _).trans (hp.trans (pySorted_perm _).symm))
    (pySorted_sorted _) (pySorted_sorted _)

theorem from_rows_densities (rows : List SensitivityInputRow) :
    (SensitivityInputs.from_rows rows).pipe_fluid_densities =
      pySorted (foldUnique (·.pipe_fluid_density) rows []) := by
  simp [SensitivityInputs.from_rows, fromRowsAux_eq]

theorem from_rows_depths (rows : List SensitivityInputRow) :
    (SensitivityInputs.from_rows rows).depths =
      pySorted (foldUnique (·.depth) rows []) := by
  simp [SensitivityInputs.from_rows, fromRowsAux_eq]

theorem from_rows_rih (rows : List SensitivityInputRow) :
    (SensitivityInputs.from_rows rows).stretch_foe_rih =
      pySorted (foldUnique (·.stretch_foe_rih) rows []) := by
  simp [SensitivityInputs.from_rows, fromRowsAux_eq]

theorem from_rows_pooh (rows : List SensitivityInputRow) :
    (SensitivityInputs.from_rows rows).stretch_foe_pooh =
      pySorted (foldUnique (·.stretch_foe_pooh) rows []) := by
  simp [SensitivityInputs.from_rows, fromRowsAux_eq]

theorem sorted_lt_of_sorted_le_nodup (l : List ℚ) (hs : l.Sorted (· ≤ ·))
    (hn : l.Nodup) : l.Sorted (· < ·) :=
  (List.Pairwise.and hs hn).imp fun h => lt_of_le_of_ne h.1 h.2

theorem from_rows_nodup (rows : List SensitivityInputRow) :
    (SensitivityInputs.from_rows rows).pipe_fluid_densities.Nodup ∧
      (SensitivityInputs.from_rows rows).depths.Nodup ∧
      (SensitivityInputs.from_rows rows).stretch_foe_rih.Nodup ∧
      (SensitivityInputs.from_rows rows).stretch_foe_pooh.Nodup := by
  rw [from_rows_densities, from_rows_depths, from_rows_rih, from_rows_pooh]
  exact ⟨pySorted_nodup _ (nodup_foldUnique _ _ _ List.nodup_nil),
    pySorted_nodup _ (nodup_foldUnique _ _ _ List.nodup_nil),
    pySorted_nodup _ (nodup_foldUnique _ _ _ List.nodup_nil),
    pySorted_nodup _ (nodup_foldUnique _ _ _ List.nodup_nil)⟩

/-- **C8.** For every sequence of input rows, each dimension's value list
produced by the Grid Builder (`SensitivityInputs.from_rows`) is strictly
deduplicated (no value appears twice), and the built grid is independent
of input row order: any two permutations of the same rows yield the
identical grid. -/
theorem C8_grid_builder_dedup_and_order_independent
    (rows₁ rows₂ : List SensitivityInputRow) (hperm : rows₁.Perm rows₂) :
    SensitivityInputs.from_rows rows₁ = SensitivityInputs.from_rows rows₂ ∧
      ((SensitivityInputs.from_rows rows₁).pipe_fluid_densities.Nodup ∧
        (SensitivityInputs.from_rows rows₁).depths.Nodup ∧
        (SensitivityInputs.from_rows rows₁).stretch_foe_rih.Nodup ∧
        (SensitivityInputs.from_rows rows₁).stretch_foe_pooh.Nodup) := by
  refine ⟨?_, from_rows_nodup rows₁⟩
  have h1 := pySorted_foldUnique_perm_invariant (·.pipe_fluid_density) rows₁ rows₂ hperm
  have h2 := pySorted_foldUnique_perm_invariant (·.depth) rows₁ rows₂ hperm
  have h3 := pySorted_foldUnique_perm_invariant (·.stretch_foe_rih) rows₁ rows₂ hperm
  have h4 := pySorted_foldUnique_perm_invariant (·.stretch_foe_pooh) rows₁ rows₂ hperm
  simp only [SensitivityInputs.from_rows, fromRowsAux_eq] at *
  rw [h1, h2, h3, h4]

/-- Witness for C8 at a concrete input: two permutations of the same
duplicate-containing rows yield the same grid, and its dimensions are
deduplicated. -/
theorem C8_witness :
    ([({ pipe_fluid_density := some 10, depth := some 4000 } : SensitivityInputRow),
       { pipe_fluid_density := some 8, depth := some 3500, stretch_foe_rih := some 0 },
       { pipe_fluid_density := some 10, stretch_foe_pooh := some 7 }].Perm
      [({ pipe_fluid_density := some 10, stretch_foe_pooh := some 7 } : SensitivityInputRow),
       { pipe_fluid_density := some 10, depth := some 4000 },
       { pipe_fluid_density := some 8, depth := some 3500, stretch_foe_rih := some 0 }]) ∧
    (SensitivityInputs.from_rows
        [({ pipe_fluid_density := some 10, depth := some 4000 } : SensitivityInputRow),
         { pipe_fluid_density := some 8, depth := some 3500, stretch_foe_rih := some 0 },
         { pipe_fluid_density := some 10, stretch_foe_pooh := some 7 }] =
      SensitivityInputs.from_rows
        [({ pipe_fluid_density := some 10, stretch_foe_pooh := some 7 } : SensitivityInputRow),
         { pipe_fluid_density := some 10, depth := some 4000 },
         { pipe_fluid_density := some 8, depth := some 3500, stretch_foe_rih := some 0 }]) :=
  ⟨by decide, (C8_grid_builder_dedup_and_order_independent _ _ (by decide)).1⟩

/-! ## RunPlan planner lemmas -/

/-- Offsets are contiguous: each batch starts where the previous ended. -/
def offRel (p q : RunPlan) : Prop :=
  q.offset = p.end_offset

theorem extendPlanAux_mode (m : Mode) (nd nf : ℕ) :
    ∀ chunks idx offset, ∀ p ∈ (extendPlanAux m nd nf chunks idx offset).1,
      p.mode = m ∧ p.combo_count = nd * nf * p.depth_values.length := by
  intro chunks
  induction chunks with
  | nil => intro idx offset p hp; simp [extendPlanAux] at hp
  | cons ch rest ih =>
    intro idx offset p hp
    simp only [extendPlanAux] at hp
    rcases List.mem_cons.mp hp with rfl | hp
    · exact ⟨rfl, rfl⟩
    · exact ih (idx + 1) (offset + nd * nf * ch.length) p hp

theorem extendPlanAux_head (m : Mode) (nd nf : ℕ) :
    ∀ chunks idx offset, ∀ p,
      (extendPlanAux m nd nf chunks idx offset).1.head? = some p →
        p.offset = offset := by
  intro chunks
  cases chunks with
  | nil => intro idx offset p hp; simp [extendPlanAux] at hp
  | cons ch rest =>
    intro idx offset p hp
    simp only [extendPlanAux, List.head?_cons, Option.some.injEq] at hp
    rw [← hp]

theorem extendPlanAux_chain (m : Mode) (nd nf : ℕ) :
    ∀ chunks idx offset,
      List.Chain' offRel (extendPlanAux m nd nf chunks idx offset).1 := by
  intro chunks
  induction chunks with
  | nil => intro idx offset; simp [extendPlanAux]
  | cons ch rest ih =>
    intro idx offset
    simp only [extendPlanAux]
    refine List.chain'_cons'.mpr ⟨?_, ih (idx + 1) (offset + nd * nf * ch.length)⟩
    intro q hq
    have := extendPlanAux_head m nd nf rest (idx + 1) (offset + nd * nf * ch.length) q hq
    simp [offRel, this, RunPlan.end_offset]

theorem extendPlanAux_final (m : Mode) (nd nf : ℕ) :
    ∀ chunks idx offset,
      (extendPlanAux m nd nf chunks idx offset).2 =
        offset +
          ((extendPlanAux m nd nf chunks idx offset).1.map
              (fun p => p.combo_count)).sum := by
  intro chunks
  induction chunks with
  | nil => intro idx offset; simp [extendPlanAux]
  | cons ch rest ih =>
    intro idx offset
    simp only [extendPlanAux, List.map_cons, List.sum_cons]
    rw [ih (idx + 1) (offset + nd * nf * ch.length)]
    ring

theorem extendPlanAux_last (m : Mode) (nd nf : ℕ) :
    ∀ chunks idx offset, ∀ p,
      (extendPlanAux m nd nf chunks idx offset).1.getLast? = some p →
        p.end_offset = (extendPlanAux m nd nf chunks idx offset).2 := by
  intro chunks
  induction chunks with
  | nil => intro idx offset p hp; simp [extendPlanAux] at hp
  | cons ch rest ih =>
    intro idx offset p hp
    simp only [extendPlanAux] at hp ⊢
    cases hrest : (extendPlanAux m nd nf rest (idx + 1) (offset + nd * nf * ch.length)).1 with
    | nil =>
      rw [hrest] at hp
      simp only [List.getLast?_singleton, Option.some.injEq] at hp
      have hfin := extendPlanAux_final m nd nf rest (idx + 1) (offset + nd * nf * ch.length)
      rw [hrest] at hfin
      simp only [List.map_nil, List.sum_nil, Nat.add_zero] at hfin
      rw [← hp, hfin]
      rfl
    | cons q qs =>
      have hne : (extendPlanAux m nd nf rest (idx + 1) (offset + nd * nf * ch.length)).1 ≠ [] := by
        rw [hrest]; exact List.cons_ne_nil q qs
      rw [List.getLast?_cons, hrest] at hp
      have := ih (idx + 1) (offset + nd * nf * ch.length) p (by rw [hrest]; exact hp)
      simpa using this

theorem extendPlanAux_depth_mem (m : Mode) (nd nf : ℕ) :
    ∀ chunks idx offset, ∀ p ∈ (extendPlanAux m nd nf chunks idx offset).1,
      p.depth_values ∈ chunks := by
  intro chunks
  induction chunks with
  | nil => intro idx offset p hp; simp [extendPlanAux] at hp
  | cons ch rest ih =>
    intro idx offset p hp
    simp only [extendPlanAux] at hp
    rcases List.mem_cons.mp hp with rfl | hp
    · exact List.mem_cons_self _ _
    · exact List.mem_cons_of_mem _ (ih (idx + 1) (offset + nd * nf * ch.length) p hp)

theorem chunksAux_mem_ne_nil (c : ℕ) (hc : 1 ≤ c) :
    ∀ fuel l, ∀ ch ∈ chunksAux c fuel l, ch ≠ [] := by
  intro fuel
  induction fuel with
  | zero => intro l ch h; simp [chunksAux] at h
  | succ n ih =>
    intro l ch h
    cases l with
    | nil => simp [chunksAux] at h
    | cons a as =>
      simp only [chunksAux] at h
      rcases List.mem_cons.mp h with rfl | h
      · cases c with
        | zero => omega
        | succ k => simp [List.take_succ_cons]
      · exact ih _ ch h

theorem chunksAux_mem_length (c : ℕ) :
    ∀ fuel l, ∀ ch ∈ chunksAux c fuel l, ch.length ≤ c := by
  intro fuel
  induction fuel with
  | zero => intro l ch h; simp [chunksAux] at h
  | succ n ih =>
    intro l ch h
    cases l with
    | nil => simp [chunksAux] at h
    | cons a as =>
      simp only [chunksAux] at h
      rcases List.mem_cons.mp h with rfl | h
      · exact List.length_take_le c (a :: as)
      · exact ih _ ch h

theorem computeDepthChunk_pos (dc nd nf : ℕ) (h : 1 ≤ dc) :
    1 ≤ computeDepthChunk dc nd nf := by
  unfold computeDepthChunk
  rw [if_neg (by omega)]
  by_cases h0 : nd * nf = 0
  · rw [if_pos h0]; exact h
  · rw [if_neg h0]; exact Nat.le_max_left 1 _

/-- The depth chunks used by the RunPlan planner are non-empty when the
depth list is. -/
theorem chunk_depths_mem_ne_nil (depths : List ℚ) (c : ℕ) (hc : 1 ≤ c) :
    ∀ ch ∈ chunk_depths depths c, ch ≠ [] :=
  fun ch h => chunksAux_mem_ne_nil c hc depths.length depths ch h

theorem extendPlan_eq (plan : List RunPlan) (offset : ℕ)
    (inputs : SensitivityInputs) (mode : Mode) :
    extendPlan plan offset inputs mode =
      (plan ++ modePlans inputs mode offset, modeFinal inputs mode offset) := by
  unfold extendPlan modePlans modeFinal modeChunks modeFoe
  rfl

/-- Normal form of `_build_run_plan`: the RIH batches (when enabled)
followed by the POOH batches (when enabled), the latter starting at the
RIH final offset. -/
theorem buildRunPlan_eq (inputs : SensitivityInputs) :
    buildRunPlan inputs =
      (if rihEnabled inputs then modePlans inputs Mode.RIH 0 else [])
        ++ (if poohEnabled inputs then
              modePlans inputs Mode.POOH
                (if rihEnabled inputs then modeFinal inputs Mode.RIH 0 else 0)
            else []) := by
  unfold buildRunPlan rihEnabled poohEnabled
  by_cases hr : (inputs.pipe_fluid_densities.isEmpty || inputs.stretch_foe_rih.isEmpty
      || inputs.depths.isEmpty) = true
  all_goals by_cases hp : (inputs.pipe_fluid_densities.isEmpty
      || inputs.stretch_foe_pooh.isEmpty || inputs.depths.isEmpty) = true
  · simp only [hr, hp, if_pos, Bool.not_true, if_false, List.nil_append, ite_self]
    simp
  · simp only [hr, hp]
    simp [extendPlan_eq]
  · simp only [hr, hp]
    simp [extendPlan_eq]
  · simp only [hr, hp]
    simp [extendPlan_eq]

theorem modeChunks_chunk_pos (inputs : SensitivityInputs) (mode : Mode)
    (hz : inputs.depths.isEmpty = false) :
    ∀ ch ∈ modeChunks inputs mode, ch ≠ [] := by
  intro ch hch
  unfold modeChunks at hch
  rw [if_neg (by simp [hz])] at hch
  refine chunk_depths_mem_ne_nil inputs.depths _ ?_ ch hch
  apply computeDepthChunk_pos
  have : inputs.depths ≠ [] := by
    intro h; rw [h] at hz; simp at hz
  exact List.length_pos.mpr this

theorem modePlans_combo_pos (inputs : SensitivityInputs) (mode : Mode) (offset : ℕ)
    (hd : inputs.pipe_fluid_densities.isEmpty = false)
    (hz : inputs.depths.isEmpty = false)
    (hf : (modeFoe inputs mode).isEmpty = false) :
    ∀ p ∈ modePlans inputs mode offset, 0 < p.combo_count := by
  intro p hp
  obtain ⟨-, hcombo⟩ := extendPlanAux_mode mode _ _ _ 0 offset p hp
  have hdep := extendPlanAux_depth_mem mode _ _ _ 0 offset p hp
  have hne := modeChunks_chunk_pos inputs mode hz p.depth_values hdep
  have h1 : 0 < inputs.pipe_fluid_densities.length :=
    List.length_pos.mpr (by intro h; rw [h] at hd; simp at hd)
  have h2 : 0 < (modeFoe inputs mode).length :=
    List.length_pos.mpr (by intro h; rw [h] at hf; simp at hf)
  have h3 : 0 < p.depth_values.length := List.length_pos.mpr hne
  rw [hcombo]
  exact Nat.mul_pos (Nat.mul_pos h1 h2) h3

theorem rihEnabled_parts (inputs : SensitivityInputs)
    (h : rihEnabled inputs = true) :
    inputs.pipe_fluid_densities.isEmpty = false ∧
      inputs.depths.isEmpty = false ∧
      (modeFoe inputs Mode.RIH).isEmpty = false := by
  unfold rihEnabled at h
  simp only [Bool.not_eq_true', Bool.or_eq_false_iff] at h
  exact ⟨h.1.1, h.2, by simpa [modeFoe] using h.1.2⟩

theorem poohEnabled_parts (inputs : SensitivityInputs)
    (h : poohEnabled inputs = true) :
    inputs.pipe_fluid_densities.isEmpty = false ∧
      inputs.depths.isEmpty = false ∧
      (modeFoe inputs Mode.POOH).isEmpty = false := by
  unfold poohEnabled at h
  simp only [Bool.not_eq_true', Bool.or_eq_false_iff] at h
  exact ⟨h.1.1, h.2, by simpa [modeFoe] using h.1.2⟩

theorem buildRunPlan_combo_pos (inputs : SensitivityInputs) :
    ∀ p ∈ buildRunPlan inputs, 0 < p.combo_count := by
  intro p hp
  rw [buildRunPlan_eq] at hp
  rcases List.mem_append.mp hp with h | h
  · by_cases hr : rihEnabled inputs = true
    · rw [if_pos hr] at h
      obtain ⟨h1, h2, h3⟩ := rihEnabled_parts inputs hr
      exact modePlans_combo_pos inputs Mode.RIH 0 h1 h2 h3 p h
    · rw [if_neg hr] at h; simp at h
  · by_cases hpo : poohEnabled inputs = true
    · rw [if_pos hpo] at h
      obtain ⟨h1, h2, h3⟩ := poohEnabled_parts inputs hpo
      exact modePlans_combo_pos inputs Mode.POOH _ h1 h2 h3 p h
    · rw [if_neg hpo] at h; simp at h

theorem modePlans_final_sum (inputs : SensitivityInputs) (mode : Mode) (offset : ℕ) :
    modeFinal inputs mode offset =
      offset + ((modePlans inputs mode offset).map (fun p => p.combo_count)).sum :=
  extendPlanAux_final mode _ _ _ 0 offset

theorem buildRunPlan_chain (inputs : SensitivityInputs) :
    List.Chain' offRel (buildRunPlan inputs) := by
  rw [buildRunPlan_eq]
  refine List.Chain'.append ?_ ?_ ?_
  · by_cases hr : rihEnabled inputs = true
    · rw [if_pos hr]; exact extendPlanAux_chain _ _ _ _ 0 0
    · rw [if_neg hr]; exact List.chain'_nil
  · by_cases hpo : poohEnabled inputs = true
    · rw [if_pos hpo]; exact extendPlanAux_chain _ _ _ _ 0 _
    · rw [if_neg hpo]; exact List.chain'_nil
  · intro x hx y hy
    by_cases hr : rihEnabled inputs = true
    · rw [if_pos hr] at hx
      by_cases hpo : poohEnabled inputs = true
      · rw [if_pos hpo, if_pos hr] at hy
        have h1 := extendPlanAux_last Mode.RIH _ _ _ 0 0 x hx
        have h2 := extendPlanAux_head Mode.POOH _ _ _ 0 _ y hy
        unfold offRel
        rw [h2, h1]
        rfl
      · rw [if_neg hpo] at hy; simp at hy
    · rw [if_neg hr] at hx; simp at hx

theorem buildRunPlan_head_offset (inputs : SensitivityInputs) :
    ∀ p, (buildRunPlan inputs).head? = some p → p.offset = 0 := by
  intro p hp
  rw [buildRunPlan_eq] at hp
  by_cases hr : rihEnabled inputs = true
  · rw [if_pos hr] at hp
    cases hA : modePlans inputs Mode.RIH 0 with
    | nil =>
      rw [hA, List.nil_append] at hp
      by_cases hpo : poohEnabled inputs = true
      · rw [if_pos hpo, if_pos hr] at hp
        have := extendPlanAux_head Mode.POOH _ _ _ 0 _ p hp
        rw [this]
        have hfin := modePlans_final_sum inputs Mode.RIH 0
        rw [hA] at hfin
        simpa using hfin
      · rw [if_neg hpo] at hp; simp at hp
    | cons a as =>
      rw [hA, List.cons_append, List.head?_cons, Option.some.injEq] at hp
      have hhead : (modePlans inputs Mode.RIH 0).head? = some a := by
        rw [hA]; rfl
      unfold modePlans at hhead
      have := extendPlanAux_head Mode.RIH _ _ _ 0 0 a hhead
      rw [← hp]
      exact this
  · rw [if_neg hr, List.nil_append] at hp
    by_cases hpo : poohEnabled inputs = true
    · rw [if_pos hpo, if_neg hr] at hp
      exact extendPlanAux_head Mode.POOH _ _ _ 0 0 p hp
    · rw [if_neg hpo] at hp; simp at hp

/-- In a contiguous batch list that starts at offset `b`, the end of the
last batch is `b` plus the total combination count. -/
theorem chain_total : ∀ (l : List RunPlan) (b : ℕ), List.Chain' offRel l →
    (∀ p, l.head? = some p → p.offset = b) →
    (l.getLast?.map RunPlan.end_offset).getD b =
      b + (l.map (fun p => p.combo_count)).sum := by
  intro l
  induction l with
  | nil => intro b _ _; simp
  | cons a rest ih =>
    intro b hc hh
    have ha : a.offset = b := hh a rfl
    rcases List.chain'_cons'.mp hc with ⟨hhead, htail⟩
    cases rest with
    | nil =>
      simp [RunPlan.end_offset, ha]
    | cons r rs =>
      have hr : r.offset = a.end_offset := hhead r rfl
      have hrec := ih a.end_offset htail
        (by intro p hp; rw [List.head?_cons, Option.some.injEq] at hp; rw [← hp]; exact hr)
      rw [List.getLast?_cons_cons]
      have hlg : (r :: rs).getLast? = some ((r :: rs).getLast (by simp)) :=
        List.getLast?_eq_getLast (r :: rs) (by simp)
      rw [hlg] at hrec ⊢
      simp only [Option.map_some', Option.getD_some] at hrec ⊢
      rw [hrec]
      unfold RunPlan.end_offset
      simp only [List.map_cons, List.sum_cons]
      omega

theorem buildRunPlan_total_sum (inputs : SensitivityInputs) :
    totalRows (buildRunPlan inputs) =
      ((buildRunPlan inputs).map (fun p => p.combo_count)).sum := by
  have := chain_total (buildRunPlan inputs) 0 (buildRunPlan_chain inputs)
    (buildRunPlan_head_offset inputs)
  simpa [totalRows] using this

theorem chain_offsets_lt (l : List RunPlan) (hc : List.Chain' offRel l)
    (hpos : ∀ p ∈ l, 0 < p.combo_count) :
    List.Chain' (fun p q => p.offset < q.offset) l := by
  induction l with
  | nil => exact List.chain'_nil
  | cons a rest ih =>
    rcases List.chain'_cons'.mp hc with ⟨hhead, htail⟩
    refine List.chain'_cons'.mpr ⟨?_, ih htail (fun p hp => hpos p (List.mem_cons_of_mem a hp))⟩
    intro y hy
    have h1 := hhead y hy
    have h2 := hpos a (List.mem_cons_self a rest)
    unfold offRel RunPlan.end_offset at h1
    omega

theorem buildRunPlan_offsets_pairwise_lt (inputs : SensitivityInputs) :
    List.Pairwise (fun p q => p.offset < q.offset) (buildRunPlan inputs) := by
  haveI : IsTrans RunPlan (fun p q => p.offset < q.offset) :=
    ⟨fun _ _ _ h1 h2 => lt_trans h1 h2⟩
  exact List.chain'_iff_pairwise.mp
    (chain_offsets_lt _ (buildRunPlan_chain inputs) (buildRunPlan_combo_pos inputs))

/-! ## Row-loop and scan-loop shape lemmas -/

theorem emitRows_indices_bounds {ρ : Type} (start_index offset : ℕ)
    (cancel : ℕ → Bool) :
    ∀ (rows : List ρ) (idx checks : ℕ),
      ∀ g ∈ (emitRows start_index offset cancel rows idx checks).1.map Prod.fst,
        start_index ≤ g ∧ offset + idx ≤ g ∧ g < offset + idx + rows.length := by
  intro rows
  induction rows with
  | nil => intro idx checks g hg; simp [emitRows] at hg
  | cons r rest ih =>
    intro idx checks g hg
    rw [emitRows] at hg
    by_cases hlt : offset + idx < start_index
    · rw [if_pos hlt] at hg
      have := ih (idx + 1) checks g hg
      simp only [List.length_cons]
      omega
    · rw [if_neg hlt] at hg
      by_cases hcan : cancel checks = true
      · rw [if_pos hcan] at hg; simp at hg
      · rw [if_neg hcan] at hg
        simp only [List.map_cons, List.mem_cons] at hg
        rcases hg with rfl | hg
        · simp only [List.length_cons]
          omega
        · have := ih (idx + 1) (checks + 1) g hg
          simp only [List.length_cons]
          omega

theorem emitRows_indices_chain {ρ : Type} (start_index offset : ℕ)
    (cancel : ℕ → Bool) :
    ∀ (rows : List ρ) (idx checks : ℕ),
      List.Chain' (· < ·)
        ((emitRows start_index offset cancel rows idx checks).1.map Prod.fst) := by
  intro rows
  induction rows with
  | nil => intro idx checks; simp [emitRows]
  | cons r rest ih =>
    intro idx checks
    rw [emitRows]
    by_cases hlt : offset + idx < start_index
    · rw [if_pos hlt]; exact ih (idx + 1) checks
    · rw [if_neg hlt]
      by_cases hcan : cancel checks = true
      · rw [if_pos hcan]; simp
      · rw [if_neg hcan]
        simp only [List.map_cons]
        refine List.chain'_cons'.mpr ⟨?_, ih (idx + 1) (checks + 1)⟩
        intro y hy
        have hmem := List.mem_of_mem_head? hy
        have := emitRows_indices_bounds start_index offset cancel rest (idx + 1)
          (checks + 1) y hmem
        omega

/-- If a batch list is offset-contiguous, every batch starts no earlier
than the head batch. -/
theorem chain_offsets_ge : ∀ (l : List RunPlan) (b : ℕ),
    List.Chain' offRel l → (∀ p, l.head? = some p → b ≤ p.offset) →
    ∀ p ∈ l, b ≤ p.offset := by
  intro l
  induction l with
  | nil => intro b _ _ p hp; simp at hp
  | cons a rest ih =>
    intro b hc hh p hp
    rcases List.chain'_cons'.mp hc with ⟨hhead, htail⟩
    have hba : b ≤ a.offset := hh a rfl
    rcases List.mem_cons.mp hp with rfl | hp
    · exact hba
    · refine ih a.end_offset htail ?_ p hp |>.trans' ?_
      · intro q hq
        rw [hhead q hq]
      · unfold RunPlan.end_offset
        omega

/-- Master shape lemma for the batch loop: whatever the cancellation
pattern and surface behaviour, the loop only appends `row` events, their
global indices are strictly increasing and bounded below by both the
resume offset and the offset floor `b` of the remaining batches. -/
theorem scanLoop_shape {ρ : Type} (inputs : SensitivityInputs) (start_index : ℕ)
    (tables : RunPlan → Except String (List ρ)) (cancel : ℕ → Bool) :
    ∀ (plans : List RunPlan) (st : ScanState ρ) (b : ℕ),
      List.Chain' offRel plans →
      (∀ p, plans.head? = some p → b ≤ p.offset) →
      (∀ p ∈ plans, ∀ tbl, tables p = Except.ok tbl → tbl.length ≤ p.combo_count) →
      ∃ rs : List (ℕ × (Mode × ρ)),
        ((scanLoop inputs start_index tables cancel plans st).1).events =
          st.events ++ rs.map (fun x => Event.row x.1 x.2) ∧
        List.Chain' (· < ·) (rs.map Prod.fst) ∧
        (∀ g ∈ rs.map Prod.fst, b ≤ g ∧ start_index ≤ g) := by
  intro plans
  induction plans with
  | nil =>
    intro st b _ _ _
    exact ⟨[], by simp [scanLoop], by simp, by simp⟩
  | cons plan rest ih =>
    intro st b hchain hhead hlen
    rcases List.chain'_cons'.mp hchain with ⟨hlink, htail⟩
    have hb : b ≤ plan.offset := hhead plan rfl
    have hhead_rest : ∀ p, rest.head? = some p → plan.end_offset ≤ p.offset := by
      intro p hp
      rw [hlink p hp]
    have hlen_rest : ∀ p ∈ rest, ∀ tbl, tables p = Except.ok tbl →
        tbl.length ≤ p.combo_count :=
      fun p hp => hlen p (List.mem_cons_of_mem plan hp)
    rw [scanLoop]
    by_cases hcan : cancel st.checks = true
    · rw [if_pos hcan]
      exact ⟨[], by simp, by simp, by simp⟩
    · rw [if_neg hcan]
      by_cases hskip : start_index ≥ plan.end_offset
      · rw [if_pos hskip]
        obtain ⟨rs, h1, h2, h3⟩ := ih { st with checks := st.checks + 1 }
          plan.end_offset htail hhead_rest hlen_rest
        refine ⟨rs, h1, h2, fun g hg => ?_⟩
        have := h3 g hg
        unfold RunPlan.end_offset at this
        omega
      · rw [if_neg hskip]
        simp only
        cases htab : tables plan with
        | error msg => exact ⟨[], by simp, by simp, by simp⟩
        | ok table_rows =>
          cases table_rows with
          | nil => exact ⟨[], by simp, by simp, by simp⟩
          | cons r rrest =>
            simp only
            have hbnd := emitRows_indices_bounds start_index plan.offset cancel
              (r :: rrest) 0 (st.checks + 1)
            have hch := emitRows_indices_chain start_index plan.offset cancel
              (r :: rrest) 0 (st.checks + 1)
            have hlen_tbl : (r :: rrest).length ≤ plan.combo_count :=
              hlen plan (List.mem_cons_self plan rest) (r :: rrest) htab
            set er := emitRows start_index plan.offset cancel (r :: rrest) 0
              (st.checks + 1) with her
            have hup : ∀ g ∈ er.1.map Prod.fst,
                start_index ≤ g ∧ b ≤ g ∧ g < plan.end_offset := by
              intro g hg
              have := hbnd g hg
              unfold RunPlan.end_offset
              omega
            by_cases hcan2 : cancel er.2 = true
            · rw [if_pos hcan2]
              refine ⟨er.1.map (fun gr => (gr.1, (plan.mode, gr.2))), by simp, ?_, ?_⟩
              · have : (er.1.map (fun gr : ℕ × ρ => (gr.1, (plan.mode, gr.2)))).map
                    Prod.fst = er.1.map Prod.fst := by
                  simp
                rw [this]
                exact hch
              · intro g hg
                simp only [List.map_map] at hg
                have hg' : g ∈ er.1.map Prod.fst := by
                  simpa using hg
                have := hup g hg'
                exact ⟨this.2.1, this.1⟩
            · rw [if_neg hcan2]
              obtain ⟨rs, h1, h2, h3⟩ := ih _ plan.end_offset htail hhead_rest hlen_rest
              refine ⟨er.1.map (fun gr => (gr.1, (plan.mode, gr.2))) ++ rs, ?_, ?_, ?_⟩
              · rw [h1]
                cases hemp : er.1.isEmpty
                all_goals cases hm : plan.mode
                all_goals simp [hemp, hm, List.map_append, List.map_map, Function.comp]
              · rw [List.map_append]
                refine List.Chain'.append ?_ h2 ?_
                · have : (er.1.map (fun gr : ℕ × ρ => (gr.1, (plan.mode, gr.2)))).map
                      Prod.fst = er.1.map Prod.fst := by
                    simp
                  rw [this]
                  exact hch
                · intro x hx y hy
                  have hxmem := List.mem_of_mem_getLast? hx
                  have hymem := List.mem_of_mem_head? hy
                  have hx' : x ∈ er.1.map Prod.fst := by
                    simpa using hxmem
                  have hxb := hup x hx'
                  have hyb := h3 y hymem
                  have := hxb.2.2
                  have := hyb.1
                  omega
              · intro g hg
                rw [List.map_append] at hg
                rcases List.mem_append.mp hg with hg | hg
                · have hg' : g ∈ er.1.map Prod.fst := by
                    simpa using hg
                  have := hup g hg'
                  exact ⟨this.2.1, this.1⟩
                · have := h3 g hg
                  unfold RunPlan.end_offset at this
                  omega

/-- The batch loop only appends to the event list, whatever the inputs. -/
theorem scanLoop_events_prefix {ρ : Type} (inputs : SensitivityInputs)
    (start_index : ℕ) (tables : RunPlan → Except String (List ρ))
    (cancel : ℕ → Bool) :
    ∀ plans (st : ScanState ρ), ∃ extra,
      ((scanLoop inputs start_index tables cancel plans st).1).events =
        st.events ++ extra := by
  intro plans
  induction plans with
  | nil => intro st; exact ⟨[], by simp [scanLoop]⟩
  | cons plan rest ih =>
    intro st
    rw [scanLoop]
    by_cases hcan : cancel st.checks = true
    · rw [if_pos hcan]; exact ⟨[], by simp⟩
    · rw [if_neg hcan]
      by_cases hskip : start_index ≥ plan.end_offset
      · rw [if_pos hskip]; exact ih _
      · rw [if_neg hskip]
        cases htab : tables plan with
        | error msg => exact ⟨[], by simp⟩
        | ok table_rows =>
          cases table_rows with
          | nil => exact ⟨[], by simp⟩
          | cons r rrest =>
            simp only
            set er := emitRows start_index plan.offset cancel (r :: rrest) 0
              (st.checks + 1) with her
            by_cases hcan2 : cancel er.2 = true
            · rw [if_pos hcan2]
              exact ⟨er.1.map (fun gr : ℕ × ρ => Event.row gr.1 (plan.mode, gr.2)),
                by simp⟩
            · rw [if_neg hcan2]
              obtain ⟨extra, hextra⟩ := ih _
              refine ⟨er.1.map (fun gr : ℕ × ρ => Event.row gr.1 (plan.mode, gr.2))
                ++ extra, ?_⟩
              rw [hextra]
              cases hemp : er.1.isEmpty
              all_goals cases hm : plan.mode
              all_goals simp [hemp, hm]

/-- **C3.** For every valid input (one whose run plan is non-empty), the
global offsets of the planned batch list form a strictly increasing
sequence starting at 0, each batch's offset equals the previous batch's
offset plus that batch's combination count, and the last batch's offset
plus its combination count equals the total row count reported in the
`Init` progress event (which also equals the sum of all combination
counts). -/
theorem C3_global_offsets_invariant (rows : List SensitivityInputRow)
    (hplan : buildRunPlan (SensitivityInputs.from_rows rows) ≠ []) :
    List.Chain' (fun p q => q.offset = p.offset + p.combo_count)
        (buildRunPlan (SensitivityInputs.from_rows rows)) ∧
      (∀ p, (buildRunPlan (SensitivityInputs.from_rows rows)).head? = some p →
        p.offset = 0) ∧
      List.Pairwise (fun p q => p.offset < q.offset)
        (buildRunPlan (SensitivityInputs.from_rows rows)) ∧
      (∀ p, (buildRunPlan (SensitivityInputs.from_rows rows)).getLast? = some p →
        p.offset + p.combo_count =
          totalRows (buildRunPlan (SensitivityInputs.from_rows rows))) ∧
      totalRows (buildRunPlan (SensitivityInputs.from_rows rows)) =
        ((buildRunPlan (SensitivityInputs.from_rows rows)).map
            (fun p => p.combo_count)).sum ∧
      ∀ (ρ : Type) (tables : RunPlan → Except String (List ρ)) (start_index : ℕ)
          (cancel : ℕ → Bool),
        (runScan rows start_index tables cancel).events.head? =
          some (Event.init (totalRows (buildRunPlan (SensitivityInputs.from_rows rows)))) := by
  refine ⟨buildRunPlan_chain _, buildRunPlan_head_offset _,
    buildRunPlan_offsets_pairwise_lt _, ?_, buildRunPlan_total_sum _, ?_⟩
  · intro p hp
    simp [totalRows, hp, RunPlan.end_offset]
  · intro ρ tables start_index cancel
    unfold runScan
    rw [if_neg (by simp [hplan])]
    by_cases hstart : start_index ≥ totalRows (buildRunPlan (SensitivityInputs.from_rows rows))
    · rw [if_pos hstart]
      rfl
    · rw [if_neg hstart]
      obtain ⟨extra, hextra⟩ := scanLoop_events_prefix
        (SensitivityInputs.from_rows rows) start_index tables cancel
        (buildRunPlan (SensitivityInputs.from_rows rows))
        { events := [Event.init (totalRows (buildRunPlan (SensitivityInputs.from_rows rows)))]
          ops := [SurfaceOp.openSensitivityAnalysis, SurfaceOp.loadTemplate "auto"]
          rih_rows := [], pooh_rows := [], checks := 0, current_mode := none
          cache := [] }
      simp only [hextra]
      simp

/-- Witness for C3 at the spec's concrete scenario (densities 8, 10, 12;
depths 3500, 4000; RIH force-on-end 0 and -1500). -/
theorem C3_witness :
    (buildRunPlan (SensitivityInputs.from_rows
        [{ pipe_fluid_density := some 8, depth := some 3500, stretch_foe_rih := some 0 },
         { pipe_fluid_density := some 10, depth := some 4000, stretch_foe_rih := some (-1500) },
         { pipe_fluid_density := some 12 }]) ≠ []) ∧
      (List.Chain' (fun p q => q.offset = p.offset + p.combo_count)
          (buildRunPlan (SensitivityInputs.from_rows
            [{ pipe_fluid_density := some 8, depth := some 3500, stretch_foe_rih := some 0 },
             { pipe_fluid_density := some 10, depth := some 4000, stretch_foe_rih := some (-1500) },
             { pipe_fluid_density := some 12 }])) ∧
        (∀ p, (buildRunPlan (SensitivityInputs.from_rows
            [{ pipe_fluid_density := some 8, depth := some 3500, stretch_foe_rih := some 0 },
             { pipe_fluid_density := some 10, depth := some 4000, stretch_foe_rih := some (-1500) },
             { pipe_fluid_density := some 12 }])).head? = some p → p.offset = 0) ∧
        List.Pairwise (fun p q => p.offset < q.offset)
          (buildRunPlan (SensitivityInputs.from_rows
            [{ pipe_fluid_density := some 8, depth := some 3500, stretch_foe_rih := some 0 },
             { pipe_fluid_density := some 10, depth := some 4000, stretch_foe_rih := some (-1500) },
             { pipe_fluid_density := some 12 }])) ∧
        (∀ p, (buildRunPlan (SensitivityInputs.from_rows
            [{ pipe_fluid_density := some 8, depth := some 3500, stretch_foe_rih := some 0 },
             { pipe_fluid_density := some 10, depth := some 4000, stretch_foe_rih := some (-1500) },
             { pipe_fluid_density := some 12 }])).getLast? = some p →
          p.offset + p.combo_count =
            totalRows (buildRunPlan (SensitivityInputs.from_rows
              [{ pipe_fluid_density := some 8, depth := some 3500, stretch_foe_rih := some 0 },
               { pipe_fluid_density := some 10, depth := some 4000, stretch_foe_rih := some (-1500) },
               { pipe_fluid_density := some 12 }]))) ∧
        totalRows (buildRunPlan (SensitivityInputs.from_rows
            [{ pipe_fluid_density := some 8, depth := some 3500, stretch_foe_rih := some 0 },
             { pipe_fluid_density := some 10, depth := some 4000, stretch_foe_rih := some (-1500) },
             { pipe_fluid_density := some 12 }])) =
          ((buildRunPlan (SensitivityInputs.from_rows
              [{ pipe_fluid_density := some 8, depth := some 3500, stretch_foe_rih := some 0 },
               { pipe_fluid_density := some 10, depth := some 4000, stretch_foe_rih := some (-1500) },
               { pipe_fluid_density := some 12 }])).map (fun p => p.combo_count)).sum ∧
        ∀ (ρ : Type) (tables : RunPlan → Except String (List ρ)) (start_index : ℕ)
            (cancel : ℕ → Bool),
          (runScan
              [{ pipe_fluid_density := some 8, depth := some 3500, stretch_foe_rih := some 0 },
               { pipe_fluid_density := some 10, depth := some 4000, stretch_foe_rih := some (-1500) },
               { pipe_fluid_density := some 12 }] start_index tables cancel).events.head? =
            some (Event.init (totalRows (buildRunPlan (SensitivityInputs.from_rows
              [{ pipe_fluid_density := some 8, depth := some 3500, stretch_foe_rih := some 0 },
               { pipe_fluid_density := some 10, depth := some 4000, stretch_foe_rih := some (-1500) },
               { pipe_fluid_density := some 12 }]))))) :=
  ⟨by decide, C3_global_offsets_invariant _ (by decide)⟩

/-- **C4.** For every orchestrator run that gets past input validation
(non-empty run plan), and provided the external surface never returns more
rows than a batch's combination count, the progress-channel trace is
exactly one `Init` first, then zero or more `Row` events with strictly
increasing global index, then exactly one terminal event (`Done` or
`Error`) and never both.  Failures after `Init` appear as that single
trailing `Error` event (the embedded `runScan` includes the GUI worker's
exception-to-event conversion), not as an exception interleaved with the
trace. -/
theorem C4_progress_trace_shape {ρ : Type} (rows : List SensitivityInputRow)
    (start_index : ℕ) (tables : RunPlan → Except String (List ρ))
    (cancel : ℕ → Bool)
    (hplan : buildRunPlan (SensitivityInputs.from_rows rows) ≠ [])
    (hlen : ∀ p ∈ buildRunPlan (SensitivityInputs.from_rows rows), ∀ tbl,
      tables p = Except.ok tbl → tbl.length ≤ p.combo_count) :
    ∃ (rs : List (ℕ × (Mode × ρ))) (t : Event ρ),
      (runScan rows start_index tables cancel).events =
        Event.init (totalRows (buildRunPlan (SensitivityInputs.from_rows rows)))
          :: (rs.map (fun x => Event.row x.1 x.2) ++ [t]) ∧
      List.Chain' (· < ·) (rs.map Prod.fst) ∧
      (t = Event.done ∨ ∃ msg, t = Event.error msg) := by
  unfold runScan
  rw [if_neg (by simp [hplan])]
  by_cases hstart : start_index ≥ totalRows (buildRunPlan (SensitivityInputs.from_rows rows))
  · rw [if_pos hstart]
    exact ⟨[], Event.done, rfl, by simp, Or.inl rfl⟩
  · rw [if_neg hstart]
    obtain ⟨rs, h1, h2, h3⟩ := scanLoop_shape (SensitivityInputs.from_rows rows)
      start_index tables cancel (buildRunPlan (SensitivityInputs.from_rows rows))
      { events := [Event.init (totalRows (buildRunPlan (SensitivityInputs.from_rows rows)))]
        ops := [SurfaceOp.openSensitivityAnalysis, SurfaceOp.loadTemplate "auto"]
        rih_rows := [], pooh_rows := [], checks := 0, current_mode := none
        cache := [] }
      0 (buildRunPlan_chain _) (fun p _ => Nat.zero_le _) hlen
    rcases hSL : scanLoop (SensitivityInputs.from_rows rows) start_index tables cancel
        (buildRunPlan (SensitivityInputs.from_rows rows))
        { events := [Event.init (totalRows (buildRunPlan (SensitivityInputs.from_rows rows)))]
          ops := [SurfaceOp.openSensitivityAnalysis, SurfaceOp.loadTemplate "auto"]
          rih_rows := [], pooh_rows := [], checks := 0, current_mode := none
          cache := [] } with ⟨stF, failure⟩
    rw [hSL] at h1
    simp only at h1
    refine ⟨rs,
      (match failure with
        | some msg => Event.error msg
        | none => Event.done), ?_, h2, ?_⟩
    · simp only [hSL]
      simp [h1]
      cases failure
      all_goals rfl
    · cases failure with
      | none => exact Or.inl rfl
      | some msg => exact Or.inr ⟨msg, rfl⟩

/-- Witness for C4 at a concrete run: a two-batch plan (one RIH, one POOH
batch), the surface returning exactly the planned number of rows, no
cancellation. -/
theorem C4_witness :
    (buildRunPlan (SensitivityInputs.from_rows
        [{ pipe_fluid_density := some 1, depth := some 10, stretch_foe_rih := some 0,
           stretch_foe_pooh := some 5 },
         { depth := some 20 }]) ≠ []) ∧
      ∃ (rs : List (ℕ × (Mode × ℕ))) (t : Event ℕ),
        (runScan
            [{ pipe_fluid_density := some 1, depth := some 10, stretch_foe_rih := some 0,
               stretch_foe_pooh := some 5 },
             { depth := some 20 }] 0
            (fun p => Except.ok (List.replicate p.combo_count 0))
            (fun _ => false)).events =
          Event.init (totalRows (buildRunPlan (SensitivityInputs.from_rows
              [{ pipe_fluid_density := some 1, depth := some 10, stretch_foe_rih := some 0,
                 stretch_foe_pooh := some 5 },
               { depth := some 20 }])))
            :: (rs.map (fun x => Event.row x.1 x.2) ++ [t]) ∧
        List.Chain' (· < ·) (rs.map Prod.fst) ∧
        (t = Event.done ∨ ∃ msg, t = Event.error msg) :=
  ⟨by decide,
   C4_progress_trace_shape _ 0 _ _ (by decide)
     (fun p _ tbl htbl => by
       injection htbl with h
       rw [← h, List.length_replicate])⟩

/-- **C9.** For every valid input whose total planned row count is `n`,
calling the orchestrator with a resume offset at or beyond `n` emits
exactly an `Init` event followed immediately by `Done` with empty outputs,
emits no `Row` events, and performs no operation against the external
control surface. -/
theorem C9_noop_resume {ρ : Type} (rows : List SensitivityInputRow)
    (start_index : ℕ) (tables : RunPlan → Except String (List ρ))
    (cancel : ℕ → Bool)
    (hplan : buildRunPlan (SensitivityInputs.from_rows rows) ≠ [])
    (hstart : totalRows (buildRunPlan (SensitivityInputs.from_rows rows)) ≤ start_index) :
    runScan rows start_index tables cancel =
      { events := [Event.init (totalRows (buildRunPlan (SensitivityInputs.from_rows rows))),
                   Event.done]
        ops := [], rih_rows := [], pooh_rows := [] } := by
  unfold runScan
  rw [if_neg (by simp [hplan]), if_pos hstart]

/-- Witness for C9: a four-row plan resumed exactly at its total row
count. -/
theorem C9_witness :
    (buildRunPlan (SensitivityInputs.from_rows
        [{ pipe_fluid_density := some 1, depth := some 10, stretch_foe_rih := some 0,
           stretch_foe_pooh := some 5 },
         { depth := some 20 }]) ≠ []) ∧
      (totalRows (buildRunPlan (SensitivityInputs.from_rows
          [{ pipe_fluid_density := some 1, depth := some 10, stretch_foe_rih := some 0,
             stretch_foe_pooh := some 5 },
           { depth := some 20 }])) ≤ 4) ∧
      runScan (ρ := ℕ)
          [{ pipe_fluid_density := some 1, depth := some 10, stretch_foe_rih := some 0,
             stretch_foe_pooh := some 5 },
           { depth := some 20 }] 4 (fun _ => Except.ok []) (fun _ => false) =
        { events := [Event.init (totalRows (buildRunPlan (SensitivityInputs.from_rows
              [{ pipe_fluid_density := some 1, depth := some 10, stretch_foe_rih := some 0,
                 stretch_foe_pooh := some 5 },
               { depth := some 20 }]))), Event.done]
          ops := [], rih_rows := [], pooh_rows := [] } :=
  ⟨by decide, by decide, C9_noop_resume _ 4 _ _ (by decide) (by decide)⟩

/-- The row loop without cancellation keeps exactly the rows at global
indices `≥ start_index`, paired in order with the table rows. -/
theorem emitRows_no_cancel {ρ : Type} (start_index offset : ℕ) :
    ∀ (rows : List ρ) (idx checks : ℕ),
      (emitRows start_index offset (fun _ => false) rows idx checks).1.map Prod.fst =
        List.range' (max start_index (offset + idx))
          (offset + idx + rows.length - max start_index (offset + idx)) := by
  intro rows
  induction rows with
  | nil =>
    intro idx checks
    have : offset + idx + 0 - max start_index (offset + idx) = 0 := by omega
    simp [emitRows, this]
  | cons r rest ih =>
    intro idx checks
    rw [emitRows]
    by_cases hlt : offset + idx < start_index
    · rw [if_pos hlt]
      rw [ih (idx + 1) checks]
      have h1 : max start_index (offset + (idx + 1)) = max start_index (offset + idx) := by
        omega
      have h2 : offset + (idx + 1) + rest.length =
          offset + idx + (r :: rest).length := by
        simp [List.length_cons]
        omega
      rw [h1, h2]
    · rw [if_neg hlt]
      simp only [if_neg (Bool.false_ne_true)]
      have hrec := ih (idx + 1) (checks + 1)
      simp only [List.map_cons]
      rw [hrec]
      have h1 : max start_index (offset + (idx + 1)) = offset + idx + 1 := by omega
      have h2 : max start_index (offset + idx) = offset + idx := by omega
      rw [h1, h2]
      have h3 : offset + (idx + 1) + rest.length - (offset + idx + 1) = rest.length := by
        omega
      have h4 : offset + idx + (r :: rest).length - (offset + idx) = rest.length + 1 := by
        simp [List.length_cons]
      rw [h3, h4]
      rw [List.range'_succ]

/-- The batch loop with no cancellation and a surface returning exactly
`combination_count` rows per batch emits exactly the global indices from
`max start_index b` up to the end of the last batch, and completes without
error. -/
theorem scanLoop_full {ρ : Type} (inputs : SensitivityInputs) (start_index : ℕ)
    (tables : RunPlan → Except String (List ρ)) :
    ∀ (plans : List RunPlan) (st : ScanState ρ) (b : ℕ),
      List.Chain' offRel plans →
      (∀ p, plans.head? = some p → p.offset = b) →
      (∀ p ∈ plans, ∃ tbl, tables p = Except.ok tbl ∧ tbl.length = p.combo_count) →
      (∀ p ∈ plans, 0 < p.combo_count) →
      ∃ rs : List (ℕ × (Mode × ρ)),
        ((scanLoop inputs start_index tables (fun _ => false) plans st).1).events =
          st.events ++ rs.map (fun x => Event.row x.1 x.2) ∧
        rs.map Prod.fst =
          List.range' (max start_index b)
            ((plans.getLast?.map RunPlan.end_offset).getD b - max start_index b) ∧
        (scanLoop inputs start_index tables (fun _ => false) plans st).2 = none := by
  intro plans
  induction plans with
  | nil =>
    intro st b _ _ _ _
    refine ⟨[], by simp [scanLoop], ?_, by simp [scanLoop]⟩
    simp
  | cons plan rest ih =>
    intro st b hchain hhead htab hpos
    rcases List.chain'_cons'.mp hchain with ⟨hlink, htail⟩
    have hb : plan.offset = b := hhead plan rfl
    have hhead_rest : ∀ p, rest.head? = some p → p.offset = plan.end_offset :=
      fun p hp => hlink p hp
    have htab_rest : ∀ p ∈ rest, ∃ tbl, tables p = Except.ok tbl ∧
        tbl.length = p.combo_count :=
      fun p hp => htab p (List.mem_cons_of_mem plan hp)
    have hpos_rest : ∀ p ∈ rest, 0 < p.combo_count :=
      fun p hp => hpos p (List.mem_cons_of_mem plan hp)
    have hE_rest :
        ((rest.getLast?.map RunPlan.end_offset).getD plan.end_offset) =
          plan.end_offset + (rest.map (fun p => p.combo_count)).sum :=
      chain_total rest plan.end_offset htail hhead_rest
    have hE_cons :
        ((plan :: rest).getLast?.map RunPlan.end_offset).getD b =
          ((rest.getLast?.map RunPlan.end_offset).getD plan.end_offset) := by
      cases hrest : rest with
      | nil => simp [RunPlan.end_offset]
      | cons q qs =>
        rw [List.getLast?_cons_cons]
        have hlg : (q :: qs).getLast? = some ((q :: qs).getLast (by simp)) :=
          List.getLast?_eq_getLast (q :: qs) (by simp)
        rw [hlg]
        simp
    rw [scanLoop]
    rw [if_neg (Bool.false_ne_true)]
    by_cases hskip : start_index ≥ plan.end_offset
    · rw [if_pos hskip]
      obtain ⟨rs, h1, h2, h3⟩ := ih { st with checks := st.checks + 1 }
        plan.end_offset htail hhead_rest htab_rest hpos_rest
      refine ⟨rs, h1, ?_, h3⟩
      rw [h2, hE_cons]
      have hbe : b ≤ plan.end_offset := by
        unfold RunPlan.end_offset
        omega
      have hm1 : max start_index plan.end_offset = start_index := by omega
      have hm2 : max start_index b = start_index := by omega
      rw [hm1, hm2]
    · rw [if_neg hskip]
      obtain ⟨tbl, htbl, hlen_tbl⟩ := htab plan (List.mem_cons_self plan rest)
      have hcpos : 0 < plan.combo_count := hpos plan (List.mem_cons_self plan rest)
      cases tbl with
      | nil => simp at hlen_tbl; omega
      | cons r rrest =>
        rw [htbl]
        simp only
        set er := emitRows start_index plan.offset (fun _ => false) (r :: rrest) 0
          (st.checks + 1) with her
        rw [if_neg (Bool.false_ne_true)]
        obtain ⟨rs, h1, h2, h3⟩ := ih _ plan.end_offset htail hhead_rest htab_rest
          hpos_rest
        refine ⟨er.1.map (fun gr => (gr.1, (plan.mode, gr.2))) ++ rs, ?_, ?_, h3⟩
        · rw [h1]
          cases hemp : er.1.isEmpty
          all_goals cases hm : plan.mode
          all_goals simp [hemp, hm, List.map_append, List.map_map, Function.comp]
        · rw [List.map_append]
          have hfst : (er.1.map (fun gr : ℕ × ρ => (gr.1, (plan.mode, gr.2)))).map
              Prod.fst = er.1.map Prod.fst := by
            simp
          rw [hfst, h2, hE_cons, hE_rest]
          rw [her, emitRows_no_cancel]
          simp only [Nat.add_zero]
          have hlen' : (r :: rrest).length = plan.combo_count := hlen_tbl
          rw [hlen']
          have hse : max start_index plan.end_offset = plan.end_offset := by omega
          rw [hse]
          have hb' : max start_index b = max start_index plan.offset := by omega
          rw [hb']
          rw [show plan.offset + plan.combo_count = plan.end_offset from rfl]
          have h5 : plan.end_offset + (rest.map (fun p => p.combo_count)).sum
              - plan.end_offset = (rest.map (fun p => p.combo_count)).sum := by
            omega
          rw [h5]
          have hmle : max start_index plan.offset ≤ plan.end_offset := by
            have : plan.offset ≤ plan.end_offset := by
              unfold RunPlan.end_offset
              omega
            omega
          have key := List.range'_append_1 (max start_index plan.offset)
            (plan.end_offset - max start_index plan.offset)
            ((rest.map (fun p => p.combo_count)).sum)
          rw [show max start_index plan.offset
              + (plan.end_offset - max start_index plan.offset) = plan.end_offset by
            omega] at key
          rw [key]
          congr 1
          omega

theorem rowIndices_shape {ρ : Type} (t : ℕ) (rs : List (ℕ × (Mode × ρ)))
    (last : Event ρ) (hlast : last = Event.done ∨ ∃ msg, last = Event.error msg) :
    rowIndices (Event.init t :: (rs.map (fun x => Event.row x.1 x.2) ++ [last])) =
      rs.map Prod.fst := by
  unfold rowIndices
  rw [List.filterMap_cons_none (by rfl), List.filterMap_append]
  have h1 : List.filterMap
      (fun e => match e with
        | Event.row i _ => some i
        | _ => none) (rs.map (fun x : ℕ × Mode × ρ => Event.row x.1 x.2)) =
      rs.map Prod.fst := by
    rw [List.filterMap_map]
    induction rs with
    | nil => rfl
    | cons a as ihr => simp only [List.filterMap_cons, List.map_cons, Function.comp]; rw [ihr]
  have h2 : List.filterMap
      (fun e => match e with
        | Event.row i _ => some i
        | _ => none) [last] = [] := by
    rcases hlast with rfl | ⟨msg, rfl⟩
    all_goals rfl
  rw [h1, h2, List.append_nil]

/-- **C5.** For every resume offset strictly between 0 and the total row
count — including offsets strictly inside a batch's range — assuming the
external surface returns exactly `combination_count` rows per batch and no
cancellation occurs, the sequence of `global_index` values emitted as
`Row` events is exactly `start_index, start_index + 1, ..., total_rows - 1`
(in particular the set of emitted indices is
`{start_index, ..., total_rows - 1}` with no gaps and no repeats), even
though the batch containing the resume offset is re-executed in full. -/
theorem C5_resume_exact_coverage {ρ : Type} (rows : List SensitivityInputRow)
    (start_index : ℕ) (tables : RunPlan → Except String (List ρ))
    (hstart0 : 0 < start_index)
    (hstart : start_index < totalRows (buildRunPlan (SensitivityInputs.from_rows rows)))
    (htab : ∀ p ∈ buildRunPlan (SensitivityInputs.from_rows rows),
      ∃ tbl, tables p = Except.ok tbl ∧ tbl.length = p.combo_count) :
    rowIndices (runScan rows start_index tables (fun _ => false)).events =
      List.range' start_index
        (totalRows (buildRunPlan (SensitivityInputs.from_rows rows)) - start_index) := by
  have hplan : buildRunPlan (SensitivityInputs.from_rows rows) ≠ [] := by
    intro h
    rw [h] at hstart
    simp [totalRows] at hstart
  unfold runScan
  rw [if_neg (by simp [hplan]), if_neg (by omega)]
  obtain ⟨rs, h1, h2, h3⟩ := scanLoop_full (SensitivityInputs.from_rows rows)
    start_index tables (buildRunPlan (SensitivityInputs.from_rows rows))
    { events := [Event.init (totalRows (buildRunPlan (SensitivityInputs.from_rows rows)))]
      ops := [SurfaceOp.openSensitivityAnalysis, SurfaceOp.loadTemplate "auto"]
      rih_rows := [], pooh_rows := [], checks := 0, current_mode := none
      cache := [] }
    0 (buildRunPlan_chain _) (buildRunPlan_head_offset _) htab
    (buildRunPlan_combo_pos _)
  rcases hSL : scanLoop (SensitivityInputs.from_rows rows) start_index tables
      (fun _ => false) (buildRunPlan (SensitivityInputs.from_rows rows))
      { events := [Event.init (totalRows (buildRunPlan (SensitivityInputs.from_rows rows)))]
        ops := [SurfaceOp.openSensitivityAnalysis, SurfaceOp.loadTemplate "auto"]
        rih_rows := [], pooh_rows := [], checks := 0, current_mode := none
        cache := [] } with ⟨stF, failure⟩
  rw [hSL] at h1 h3
  simp only at h1 h3
  subst h3
  simp only [hSL]
  have hev : stF.events ++ [Event.done] =
      Event.init (totalRows (buildRunPlan (SensitivityInputs.from_rows rows)))
        :: (rs.map (fun x => Event.row x.1 x.2) ++ [Event.done]) := by
    rw [h1]
    simp
  rw [hev, rowIndices_shape _ _ _ (Or.inl rfl), h2]
  have : max start_index 0 = start_index := by omega
  rw [this]
  rfl

/-- Witness for C5: the two-batch plan resumed at offset 1, strictly
inside the first batch. -/
theorem C5_witness :
    (0 < 1) ∧
      (1 < totalRows (buildRunPlan (SensitivityInputs.from_rows
        [{ pipe_fluid_density := some 1, depth := some 10, stretch_foe_rih := some 0,
           stretch_foe_pooh := some 5 },
         { depth := some 20 }]))) ∧
      rowIndices (runScan (ρ := ℕ)
          [{ pipe_fluid_density := some 1, depth := some 10, stretch_foe_rih := some 0,
             stretch_foe_pooh := some 5 },
           { depth := some 20 }] 1
          (fun p => Except.ok (List.replicate p.combo_count 0))
          (fun _ => false)).events =
        List.range' 1
          (totalRows (buildRunPlan (SensitivityInputs.from_rows
            [{ pipe_fluid_density := some 1, depth := some 10, stretch_foe_rih := some 0,
               stretch_foe_pooh := some 5 },
             { depth := some 20 }])) - 1) :=
  ⟨Nat.one_pos, by decide,
   C5_resume_exact_coverage _ 1 _ Nat.one_pos (by decide)
     (fun p _ => ⟨List.replicate p.combo_count 0, rfl, List.length_replicate _ _⟩)⟩

/-- The row loop emits every row (paired with its global index) when the
whole batch lies at or after the resume offset and the cancellation signal
stays unset throughout the loop's samples. -/
theorem emitRows_zip {ρ : Type} (start_index offset : ℕ) (cancel : ℕ → Bool) :
    ∀ (rows : List ρ) (idx checks : ℕ),
      start_index ≤ offset + idx →
      (∀ j, j < checks + rows.length → cancel j = false) →
      emitRows start_index offset cancel rows idx checks =
        ((List.range' (offset + idx) rows.length).zip rows, checks + rows.length) := by
  intro rows
  induction rows with
  | nil => intro idx checks _ _; simp [emitRows]
  | cons r rest ih =>
    intro idx checks hstart hcan
    rw [emitRows]
    rw [if_neg (by omega)]
    rw [if_neg (by rw [hcan checks (by simp only [List.length_cons]; omega)]; simp)]
    rw [ih (idx + 1) (checks + 1) (by omega)
      (by intro j hj; exact hcan j (by simp only [List.length_cons] at *; omega))]
    simp only [List.length_cons, List.range'_succ, List.zip_cons_cons, Prod.mk.injEq]
    constructor
    · rfl
    · omega

/-- Evaluation of the batch loop on a two-batch plan when the cancellation
signal becomes set exactly after the first batch is fully processed
(samples 0 through `combo+1` unset, samples from `combo+2` on set): the
first batch runs in full, its rows are emitted and accumulated, and the
second batch is never started — no surface operation is performed for
it. -/
theorem scanLoop_cancel_after_first {ρ : Type} (inputs : SensitivityInputs)
    (tables : RunPlan → Except String (List ρ)) (p1 p2 : RunPlan) (t1 : List ρ)
    (ev0 : List (Event ρ)) (ops0 : List SurfaceOp) (rih0 pooh0 : List (ℕ × ρ))
    (cm0 : Option Mode) (cache0 : List (String × List ℚ))
    (hpos1 : 0 < p1.combo_count)
    (ht1 : tables p1 = Except.ok t1)
    (hlen1 : t1.length = p1.combo_count) :
    scanLoop inputs 0 tables (fun i => decide (p1.combo_count + 2 ≤ i)) [p1, p2]
        ⟨ev0, ops0, rih0, pooh0, 0, cm0, cache0⟩ =
      ({ events := ev0 ++ ((List.range' p1.offset t1.length).zip t1).map
            (fun gr => Event.row gr.1 (p1.mode, gr.2))
         ops := ops0 ++ (applyBatchSurface inputs p1 cm0 cache0).1
         rih_rows := rih0 ++ (if p1.mode = Mode.RIH then
            (List.range' p1.offset t1.length).zip t1 else [])
         pooh_rows := pooh0 ++ (if p1.mode = Mode.POOH then
            (List.range' p1.offset t1.length).zip t1 else [])
         checks := p1.combo_count + 3
         current_mode := (applyBatchSurface inputs p1 cm0 cache0).2.1
         cache := (applyBatchSurface inputs p1 cm0 cache0).2.2 }, none) := by
  cases t1 with
  | nil =>
    simp only [List.length_nil] at hlen1
    omega
  | cons r rrest =>
    have h1 : (decide (p1.combo_count + 2 ≤ 0)) = false := by
      simp only [decide_eq_false_iff_not]
      omega
    have h2 : ¬ (0 ≥ p1.end_offset) := by
      unfold RunPlan.end_offset
      omega
    have hzip := emitRows_zip 0 p1.offset (fun i => decide (p1.combo_count + 2 ≤ i))
      (r :: rrest) 0 1 (by omega)
      (by
        intro j hj
        simp only [List.length_cons] at hj
        simp only [List.length_cons] at hlen1
        simp only [decide_eq_false_iff_not]
        omega)
    have h3 : (decide (p1.combo_count + 2 ≤ 1 + (r :: rrest).length)) = false := by
      simp only [List.length_cons] at hlen1 ⊢
      simp only [decide_eq_false_iff_not]
      omega
    have h4 : (decide (p1.combo_count + 2 ≤ 1 + (r :: rrest).length + 1)) = true := by
      simp only [List.length_cons] at hlen1 ⊢
      simp only [decide_eq_true_eq]
      omega
    have hne : (((List.range' p1.offset (r :: rrest).length).zip (r :: rrest))).isEmpty
        = false := by
      simp [List.length_cons, List.range'_succ]
    rw [scanLoop]
    rw [if_neg (by simp only [h1]; exact Bool.false_ne_true)]
    rw [if_neg (by exact h2)]
    simp only
    rw [ht1]
    simp only
    rw [hzip]
    simp only [Nat.add_zero]
    rw [if_neg (by simp only [h3]; exact Bool.false_ne_true)]
    rw [hne]
    simp only [Bool.false_eq_true, if_false]
    cases hm : p1.mode
    all_goals rw [scanLoop]
    all_goals rw [if_pos (by simpa using h4)]
    all_goals simp only [List.length_cons] at hlen1
    all_goals simp [hm, List.length_cons]
    all_goals omega

/-- **C7 counterexample.** The claim's clause "cancellation is checked
only between batches, never mid-batch" is false of the code: `run_scan`
samples the cancellation event inside the per-row emission loop (line
133), and the sample takes effect mid-batch.  Concretely: a single-batch
plan with two combinations, a surface returning both rows, and a monotone
cancellation signal that is unset for the first two samples and set from
the third sample on (i.e. set while the batch's rows are being emitted)
produces a trace with exactly ONE `Row` event followed by `Done`.  If
cancellation were only checked between batches, the trace could only
contain zero or two `Row` events. -/
theorem C7_counterexample :
    ((buildRunPlan (SensitivityInputs.from_rows
        [{ pipe_fluid_density := some 1, depth := some 10, stretch_foe_rih := some 0 },
         { depth := some 20 }])).map (fun p => p.combo_count) = [2]) ∧
      (runScan (ρ := ℕ)
          [{ pipe_fluid_density := some 1, depth := some 10, stretch_foe_rih := some 0 },
           { depth := some 20 }] 0 (fun _ => Except.ok [10, 20])
          (fun i => decide (2 ≤ i))).events =
        [Event.init 2, Event.row 0 (Mode.RIH, 10), Event.done] := by
  constructor
  · decide
  · decide

/-- **C7 (amended).** For every two-batch plan whose batches have distinct
modes, if the cancellation signal is set after the first batch completes
and before the second batch starts (unset for the first batch's samples,
set from sample `combo₁ + 2` on), the orchestrator emits exactly the
first batch's `Row` events, performs no external-surface operation for
the second batch (the operations performed are exactly the one-time setup
plus the first batch's surface interaction), terminates with `Done` (not
`Error`), and leaves the second mode's output collection empty.  The
original claim's final clause is amended: cancellation is checked
cooperatively at the top of the batch loop, once per emitted row, and
after each batch's row loop — it never interrupts the external operations
of a batch, but it is also sampled (and takes effect) inside the row
loop, not only between batches (see the counterexample). -/
theorem C7_cancel_between_batches {ρ : Type} (rows : List SensitivityInputRow)
    (p1 p2 : RunPlan) (tables : RunPlan → Except String (List ρ)) (t1 : List ρ)
    (hplan : buildRunPlan (SensitivityInputs.from_rows rows) = [p1, p2])
    (hmode : p1.mode ≠ p2.mode)
    (ht1 : tables p1 = Except.ok t1)
    (hlen1 : t1.length = p1.combo_count) :
    (runScan rows 0 tables (fun i => decide (p1.combo_count + 2 ≤ i))).events =
        Event.init p2.end_offset
          :: (((List.range' 0 t1.length).zip t1).map
                (fun gr => Event.row gr.1 (p1.mode, gr.2)) ++ [Event.done]) ∧
      (runScan rows 0 tables (fun i => decide (p1.combo_count + 2 ≤ i))).ops =
        [SurfaceOp.openSensitivityAnalysis, SurfaceOp.loadTemplate "auto"]
          ++ (applyBatchSurface (SensitivityInputs.from_rows rows) p1 none []).1 ∧
      (runScan rows 0 tables (fun i => decide (p1.combo_count + 2 ≤ i))).modeRows
        p2.mode = [] := by
  have hpos1 : 0 < p1.combo_count :=
    buildRunPlan_combo_pos _ p1 (by rw [hplan]; exact List.mem_cons_self _ _)
  have hpos2 : 0 < p2.combo_count :=
    buildRunPlan_combo_pos _ p2 (by rw [hplan]; simp)
  have hoff1 : p1.offset = 0 := buildRunPlan_head_offset _ p1 (by rw [hplan]; rfl)
  have htot : totalRows [p1, p2] = p2.end_offset := by
    simp [totalRows]
  unfold runScan
  simp only
  rw [hplan]
  rw [if_neg (by simp)]
  rw [if_neg (by
    rw [htot]
    unfold RunPlan.end_offset
    omega)]
  rw [htot]
  rw [scanLoop_cancel_after_first (SensitivityInputs.from_rows rows) tables p1 p2 t1
    [Event.init p2.end_offset]
    [SurfaceOp.openSensitivityAnalysis, SurfaceOp.loadTemplate "auto"]
    [] [] none [] hpos1 ht1 hlen1]
  rw [hoff1]
  refine ⟨by simp, by simp, ?_⟩
  unfold ScanOutcome.modeRows
  cases hm2 : p2.mode
  all_goals cases hm1 : p1.mode
  all_goals simp only
  · exact absurd (hm1.trans hm2.symm) hmode
  · simp [hm1]
  · simp [hm1]
  · exact absurd (hm1.trans hm2.symm) hmode

/-- Witness for the amended C7 at a concrete two-batch, two-mode run:
one RIH batch (two rows) then one POOH batch, cancellation set from the
fourth sample on; exactly the RIH rows are emitted, the run ends with
`Done` and the POOH output collection is empty. -/
theorem C7_witness :
    (buildRunPlan (SensitivityInputs.from_rows
        [{ pipe_fluid_density := some 1, depth := some 10, stretch_foe_rih := some 0,
           stretch_foe_pooh := some 5 },
         { depth := some 20 }]) =
      [⟨Mode.RIH, [10, 20], true, true, 2, 0⟩, ⟨Mode.POOH, [10, 20], true, true, 2, 2⟩]) ∧
      (runScan (ρ := ℕ)
          [{ pipe_fluid_density := some 1, depth := some 10, stretch_foe_rih := some 0,
             stretch_foe_pooh := some 5 },
           { depth := some 20 }] 0 (fun _ => Except.ok [7, 8])
          (fun i => decide (2 + 2 ≤ i))).events =
        [Event.init 4, Event.row 0 (Mode.RIH, 7), Event.row 1 (Mode.RIH, 8),
          Event.done] ∧
      (runScan (ρ := ℕ)
          [{ pipe_fluid_density := some 1, depth := some 10, stretch_foe_rih := some 0,
             stretch_foe_pooh := some 5 },
           { depth := some 20 }] 0 (fun _ => Except.ok [7, 8])
          (fun i => decide (2 + 2 ≤ i))).modeRows Mode.POOH = [] := by
  have h := C7_cancel_between_batches (ρ := ℕ)
    [{ pipe_fluid_density := some 1, depth := some 10, stretch_foe_rih := some 0,
       stretch_foe_pooh := some 5 },
     { depth := some 20 }]
    ⟨Mode.RIH, [10, 20], true, true, 2, 0⟩ ⟨Mode.POOH, [10, 20], true, true, 2, 2⟩
    (fun _ => Except.ok [7, 8]) [7, 8] (by decide) (by decide) rfl (by decide)
  exact ⟨by decide, h.1, h.2.2⟩

/-! ## Chunk-size-balancing planner lemmas -/

theorem chunksAux_flatten (c : ℕ) (hc : 1 ≤ c) :
    ∀ fuel l, l.length ≤ fuel → (chunksAux c fuel l).flatten = l := by
  intro fuel
  induction fuel with
  | zero =>
    intro l hl
    rw [Nat.le_zero, List.length_eq_zero] at hl
    rw [hl]
    rfl
  | succ n ih =>
    intro l hl
    cases l with
    | nil => rfl
    | cons a as =>
      simp only [List.length_cons] at hl
      simp only [chunksAux, List.flatten_cons]
      rw [ih ((a :: as).drop c)
        (by simp only [List.length_drop, List.length_cons]; omega)]
      exact List.take_append_drop c (a :: as)

theorem chunkSequence_flatten (l : List ℚ) (c : ℕ) (hc : 1 ≤ c) :
    (chunkSequence l c).flatten = l := by
  unfold chunkSequence
  by_cases h : l.length ≤ c
  · rw [if_pos h]; simp
  · rw [if_neg h]
    exact chunksAux_flatten c hc l.length l le_rfl

theorem chunkSequence_mem_ne_nil (l : List ℚ) (c : ℕ) (hl : l ≠ []) (hc : 1 ≤ c) :
    ∀ ch ∈ chunkSequence l c, ch ≠ [] := by
  intro ch hch
  unfold chunkSequence at hch
  by_cases h : l.length ≤ c
  · rw [if_pos h] at hch
    simp only [List.mem_singleton] at hch
    rw [hch]
    exact hl
  · rw [if_neg h] at hch
    exact chunksAux_mem_ne_nil c hc l.length l ch hch

theorem chunkSequence_mem_length (l : List ℚ) (c : ℕ) :
    ∀ ch ∈ chunkSequence l c, ch.length ≤ c := by
  intro ch hch
  unfold chunkSequence at hch
  by_cases h : l.length ≤ c
  · rw [if_pos h] at hch
    simp only [List.mem_singleton] at hch
    rw [hch]
    exact h
  · rw [if_neg h] at hch
    exact chunksAux_mem_length c l.length l ch hch

theorem flatMap_const_nil {α β : Type} (l : List α) :
    (l.flatMap fun _ => ([] : List β)) = [] := by
  induction l with
  | nil => rfl
  | cons a as ih => rw [List.flatMap_cons, List.nil_append]; exact ih

theorem product3_nil_mid (a w : List ℚ) : product3 a [] w = [] := by
  unfold product3
  exact flatMap_const_nil a

theorem product3_nil_right (a z : List ℚ) : product3 a z [] = [] := by
  unfold product3
  rw [show (fun d => z.flatMap fun zz => ([] : List ℚ).map fun w => (d, zz, w)) =
      fun _ => ([] : List (ℚ × ℚ × ℚ)) from ?_]
  · exact flatMap_const_nil a
  · funext d
    simp only [List.map_nil]
    exact flatMap_const_nil z

theorem prod2_length (d : ℚ) (z w : List ℚ) :
    (z.flatMap fun zz => w.map fun ww => (d, zz, ww)).length = z.length * w.length := by
  induction z with
  | nil => simp
  | cons zz zs ihz =>
    simp only [List.flatMap_cons, List.length_append, List.length_map, ihz,
      List.length_cons]
    ring

theorem product3_length (a z w : List ℚ) :
    (product3 a z w).length = a.length * (z.length * w.length) := by
  unfold product3
  induction a with
  | nil => simp
  | cons d ds ih =>
    simp only [List.flatMap_cons, List.length_append, ih, List.length_cons,
      prod2_length]
    ring

theorem product3_append_left (a1 a2 z w : List ℚ) :
    product3 (a1 ++ a2) z w = product3 a1 z w ++ product3 a2 z w := by
  unfold product3
  exact List.flatMap_append a1 a2 _

theorem product3_append_mid_perm (a z1 z2 w : List ℚ) :
    (product3 a (z1 ++ z2) w).Perm (product3 a z1 w ++ product3 a z2 w) := by
  unfold product3
  have h1 : (a.flatMap fun d => (z1 ++ z2).flatMap fun z => w.map fun ww => (d, z, ww)) =
      a.flatMap fun d => ((z1.flatMap fun z => w.map fun ww => (d, z, ww))
        ++ (z2.flatMap fun z => w.map fun ww => (d, z, ww))) := by
    apply List.flatMap_congr
    intro d _
    exact List.flatMap_append z1 z2 _
  rw [h1]
  exact (List.flatMap_append_perm a _ _).symm

theorem product3_append_right_perm (a z w1 w2 : List ℚ) :
    (product3 a z (w1 ++ w2)).Perm (product3 a z w1 ++ product3 a z w2) := by
  unfold product3
  have h1 : (a.flatMap fun d => z.flatMap fun zz => (w1 ++ w2).map fun ww => (d, zz, ww)) =
      a.flatMap fun d => z.flatMap fun zz =>
        ((w1.map fun ww => (d, zz, ww)) ++ (w2.map fun ww => (d, zz, ww))) := by
    apply List.flatMap_congr
    intro d _
    apply List.flatMap_congr
    intro zz _
    exact List.map_append _ w1 w2
  rw [h1]
  have h2 : ∀ d ∈ a, (z.flatMap fun zz =>
      ((w1.map fun ww => (d, zz, ww)) ++ (w2.map fun ww => (d, zz, ww)))).Perm
        ((z.flatMap fun zz => w1.map fun ww => (d, zz, ww))
          ++ (z.flatMap fun zz => w2.map fun ww => (d, zz, ww))) := by
    intro d _
    exact (List.flatMap_append_perm z _ _).symm
  refine (List.Perm.flatMap_left a h2).trans ?_
  exact (List.flatMap_append_perm a _ _).symm

theorem cover_inner (dv zv : List ℚ) :
    ∀ wcs : List (List ℚ),
      ((wcs.map fun wv => product3 dv zv wv).flatten).Perm
        (product3 dv zv wcs.flatten) := by
  intro wcs
  induction wcs with
  | nil =>
    rw [show ([] : List (List ℚ)).flatten = [] from rfl]
    rw [product3_nil_right]
    rfl
  | cons wv rest ih =>
    simp only [List.map_cons, List.flatten_cons]
    refine ((List.Perm.refl (product3 dv zv wv)).append ih).trans ?_
    exact (product3_append_right_perm dv zv wv rest.flatten).symm

theorem cover_mid (dv : List ℚ) :
    ∀ (zcs wcs : List (List ℚ)),
      (((zcs.map fun zv => (wcs.map fun wv => product3 dv zv wv).flatten)).flatten).Perm
        (product3 dv zcs.flatten wcs.flatten) := by
  intro zcs wcs
  induction zcs with
  | nil =>
    rw [show ([] : List (List ℚ)).flatten = [] from rfl]
    rw [product3_nil_mid]
    rfl
  | cons zv rest ih =>
    simp only [List.map_cons, List.flatten_cons]
    refine ((cover_inner dv zv wcs).append ih).trans ?_
    exact (product3_append_mid_perm dv zv rest.flatten wcs.flatten).symm

theorem cover_triple :
    ∀ (dcs zcs wcs : List (List ℚ)),
      (((dcs.map fun dv =>
          ((zcs.map fun zv => (wcs.map fun wv => product3 dv zv wv).flatten)).flatten)).flatten).Perm
        (product3 dcs.flatten zcs.flatten wcs.flatten) := by
  intro dcs zcs wcs
  induction dcs with
  | nil => rfl
  | cons dv rest ih =>
    simp only [List.map_cons, List.flatten_cons]
    refine ((cover_mid dv zcs wcs).append ih).trans ?_
    rw [product3_append_left]

theorem product3_nodup (a z w : List ℚ) (ha : a.Nodup) (hz : z.Nodup) (hw : w.Nodup) :
    (product3 a z w).Nodup := by
  unfold product3
  rw [List.nodup_flatMap]
  constructor
  · intro d _
    rw [List.nodup_flatMap]
    constructor
    · intro zz _
      exact hw.map (fun w1 w2 h => by injection h with h1 h2; injection h2)
    · refine hz.imp ?_
      intro z1 z2 hne
      simp only [Function.onFun]
      rw [List.disjoint_left]
      rintro x hx1 hx2
      simp only [List.mem_map] at hx1 hx2
      obtain ⟨w1, _, rfl⟩ := hx1
      obtain ⟨w2, _, heq⟩ := hx2
      injection heq with h1 h2
      injection h2 with h3 h4
      exact hne h3.symm
  · refine ha.imp ?_
    intro d1 d2 hne
    simp only [Function.onFun]
    rw [List.disjoint_left]
    rintro x hx1 hx2
    simp only [List.mem_flatMap, List.mem_map] at hx1 hx2
    obtain ⟨z1, _, w1, _, rfl⟩ := hx1
    obtain ⟨z2, _, w2, _, heq⟩ := hx2
    injection heq with h1 h2
    exact hne h1.symm

/-- The greedy three-step chunk assignment never exceeds the capacity:
each step takes at most `max_batch_size` divided by the product already
assigned, so the running product stays bounded. -/
theorem three_greedy_le (l1 l2 l3 maxB : ℕ) (hmax : 1 ≤ maxB) (h1 : 1 ≤ l1)
    (h2 : 1 ≤ l2) (h3 : 1 ≤ l3) :
    1 ≤ min l1 (if maxB / 1 = 0 then 1 else maxB / 1) ∧
      1 ≤ min l2 (if maxB / (1 * min l1 (if maxB / 1 = 0 then 1 else maxB / 1)) = 0
          then 1
          else maxB / (1 * min l1 (if maxB / 1 = 0 then 1 else maxB / 1))) ∧
      1 ≤ min l3 (if maxB / (1 * min l1 (if maxB / 1 = 0 then 1 else maxB / 1)
              * min l2 (if maxB / (1 * min l1 (if maxB / 1 = 0 then 1 else maxB / 1)) = 0
                  then 1
                  else maxB / (1 * min l1 (if maxB / 1 = 0 then 1 else maxB / 1)))) = 0
          then 1
          else maxB / (1 * min l1 (if maxB / 1 = 0 then 1 else maxB / 1)
              * min l2 (if maxB / (1 * min l1 (if maxB / 1 = 0 then 1 else maxB / 1)) = 0
                  then 1
                  else maxB / (1 * min l1 (if maxB / 1 = 0 then 1 else maxB / 1))))) ∧
      min l1 (if maxB / 1 = 0 then 1 else maxB / 1)
        * min l2 (if maxB / (1 * min l1 (if maxB / 1 = 0 then 1 else maxB / 1)) = 0
            then 1
            else maxB / (1 * min l1 (if maxB / 1 = 0 then 1 else maxB / 1)))
        * min l3 (if maxB / (1 * min l1 (if maxB / 1 = 0 then 1 else maxB / 1)
              * min l2 (if maxB / (1 * min l1 (if maxB / 1 = 0 then 1 else maxB / 1)) = 0
                  then 1
                  else maxB / (1 * min l1 (if maxB / 1 = 0 then 1 else maxB / 1)))) = 0
            then 1
            else maxB / (1 * min l1 (if maxB / 1 = 0 then 1 else maxB / 1)
              * min l2 (if maxB / (1 * min l1 (if maxB / 1 = 0 then 1 else maxB / 1)) = 0
                  then 1
                  else maxB / (1 * min l1 (if maxB / 1 = 0 then 1 else maxB / 1)))))
        ≤ maxB := by
  simp only [Nat.div_one, Nat.one_mul]
  have hmax0 : (maxB = 0) = False := by simp; omega
  simp only [hmax0, if_false]
  set c1 := min l1 maxB with hc1
  have hc1pos : 1 ≤ c1 := by omega
  have hc1le : c1 ≤ maxB := by omega
  have hd1 : 1 ≤ maxB / c1 := (Nat.one_le_div_iff (by omega)).mpr hc1le
  have hd1ne : (maxB / c1 = 0) = False := by simp; omega
  simp only [hd1ne, if_false]
  set c2 := min l2 (maxB / c1) with hc2
  have hc2pos : 1 ≤ c2 := by omega
  have hc12 : c1 * c2 ≤ maxB := by
    calc c1 * c2 ≤ c1 * (maxB / c1) := Nat.mul_le_mul_left c1 (by omega)
    _ ≤ maxB := Nat.mul_div_le maxB c1
  have hc12pos : 1 ≤ c1 * c2 := Nat.one_le_iff_ne_zero.mpr (by positivity)
  have hd2 : 1 ≤ maxB / (c1 * c2) := (Nat.one_le_div_iff (by omega)).mpr hc12
  have hd2ne : (maxB / (c1 * c2) = 0) = False := by simp; omega
  simp only [hd2ne, if_false]
  set c3 := min l3 (maxB / (c1 * c2)) with hc3
  refine ⟨hc1pos, hc2pos, by omega, ?_⟩
  calc c1 * c2 * c3 ≤ c1 * c2 * (maxB / (c1 * c2)) :=
        Nat.mul_le_mul_left (c1 * c2) (by omega)
    _ ≤ maxB := Nat.mul_div_le maxB (c1 * c2)

/-- The per-dimension chunk sizes chosen by `_plan_chunk_sizes` for the
three-dimension length map: each is at least 1 and their product is at
most `max_batch_size`. -/
theorem planChunkSizes3_spec (nd nz nw maxB : ℕ) (hmax : 1 ≤ maxB) (hnd : 1 ≤ nd)
    (hnz : 1 ≤ nz) (hnw : 1 ≤ nw) :
    1 ≤ ((planChunkSizes [("density", nd), ("depth", nz), ("wob", nw)]
          maxB).lookup "density").getD 1 ∧
      1 ≤ ((planChunkSizes [("density", nd), ("depth", nz), ("wob", nw)]
          maxB).lookup "depth").getD 1 ∧
      1 ≤ ((planChunkSizes [("density", nd), ("depth", nz), ("wob", nw)]
          maxB).lookup "wob").getD 1 ∧
      ((planChunkSizes [("density", nd), ("depth", nz), ("wob", nw)]
          maxB).lookup "density").getD 1
        * ((planChunkSizes [("density", nd), ("depth", nz), ("wob", nw)]
            maxB).lookup "depth").getD 1
        * ((planChunkSizes [("density", nd), ("depth", nz), ("wob", nw)]
            maxB).lookup "wob").getD 1 ≤ maxB := by
  have e1 : (("density" : String) == "depth") = false := by decide
  have e2 : (("density" : String) == "wob") = false := by decide
  have e3 : (("depth" : String) == "density") = false := by decide
  have e4 : (("depth" : String) == "wob") = false := by decide
  have e5 : (("wob" : String) == "density") = false := by decide
  have e6 : (("wob" : String) == "wob") = true := by decide
  have e7 : (("density" : String) == "density") = true := by decide
  have e8 : (("depth" : String) == "depth") = true := by decide
  have e9 : (("wob" : String) == "depth") = false := by decide
  unfold planChunkSizes sortDesc
  simp only [List.foldl_cons, List.foldl_nil]
  by_cases h1 : nz ≤ nd
  all_goals by_cases h2 : nw ≤ nd
  all_goals by_cases h3 : nw ≤ nz
  all_goals simp only [insertDesc, h1, h2, h3, if_true, if_false, ite_true, ite_false]
  all_goals simp only [assignChunks, List.lookup, e1, e2, e3, e4, e5, e6, e7, e8, e9,
    Option.getD_some]
  · obtain ⟨a, b, c, d⟩ := three_greedy_le nd nz nw maxB hmax hnd hnz hnw
    exact ⟨a, b, c, le_trans (le_of_eq (by ring)) d⟩
  · obtain ⟨a, b, c, d⟩ := three_greedy_le nd nw nz maxB hmax hnd hnw hnz
    exact ⟨a, c, b, le_trans (le_of_eq (by ring)) d⟩
  · exact absurd (by omega : nw ≤ nd) h2
  · obtain ⟨a, b, c, d⟩ := three_greedy_le nw nd nz maxB hmax hnw hnd hnz
    exact ⟨b, c, a, le_trans (le_of_eq (by ring)) d⟩
  · obtain ⟨a, b, c, d⟩ := three_greedy_le nz nd nw maxB hmax hnz hnd hnw
    exact ⟨b, a, c, le_trans (le_of_eq (by ring)) d⟩
  · exact absurd (by omega : nw ≤ nz) h3
  · obtain ⟨a, b, c, d⟩ := three_greedy_le nz nw nd maxB hmax hnz hnw hnd
    exact ⟨c, a, b, le_trans (le_of_eq (by ring)) d⟩
  · obtain ⟨a, b, c, d⟩ := three_greedy_le nw nz nd maxB hmax hnw hnz hnd
    exact ⟨c, b, a, le_trans (le_of_eq (by ring)) d⟩

theorem flatMap_singleton_eq_map {α β : Type} (l : List α) (f : α → β) :
    (l.flatMap fun x => [f x]) = l.map f := by
  induction l with
  | nil => rfl
  | cons a as ih => rw [List.flatMap_cons, List.map_cons, ih]; rfl

theorem flatten_flatMap {α β : Type} (l : List α) (f : α → List (List β)) :
    (l.flatMap f).flatten = (l.map fun a => (f a).flatten).flatten := by
  induction l with
  | nil => rfl
  | cons a as ih =>
    rw [List.flatMap_cons, List.map_cons, List.flatten_append, List.flatten_cons, ih]

/-- Normal form of `_generate_batches_from_grid` for a grid with no empty
dimension: one batch per chunk triple (the emptiness filters never fire),
with per-dimension chunk sizes at least 1 and of bounded product. -/
theorem generateBatches_eq (grid : ParameterGrid) (maxB : ℕ)
    (hmax : 1 ≤ maxB)
    (hd : grid.densities ≠ []) (hz : grid.depths ≠ []) (hw : grid.wobs ≠ []) :
    ∃ cd cz cw : ℕ,
      1 ≤ cd ∧ 1 ≤ cz ∧ 1 ≤ cw ∧ cd * cz * cw ≤ maxB ∧
      generateBatchesFromGrid grid maxB =
        (chunkSequence grid.densities cd).flatMap fun dv =>
          (chunkSequence grid.depths cz).flatMap fun zv =>
            (chunkSequence grid.wobs cw).map fun wv =>
              { density_values := dv, depth_values := zv, wob_values := wv,
                combinations := product3 dv zv wv } := by
  have hld : 1 ≤ grid.densities.length := List.length_pos.mpr hd
  have hlz : 1 ≤ grid.depths.length := List.length_pos.mpr hz
  have hlw : 1 ≤ grid.wobs.length := List.length_pos.mpr hw
  have hs : ¬ (grid.sample_count = 0) := by
    unfold ParameterGrid.sample_count
    positivity
  obtain ⟨pd, pz, pw, hprod⟩ := planChunkSizes3_spec grid.densities.length
    grid.depths.length grid.wobs.length maxB hmax hld hlz hlw
  refine ⟨_, _, _, pd, pz, pw, hprod, ?_⟩
  unfold generateBatchesFromGrid
  rw [if_neg hs]
  apply List.flatMap_congr
  intro dv hdv
  apply List.flatMap_congr
  intro zv hzv
  have hdv_ne : dv ≠ [] := chunkSequence_mem_ne_nil grid.densities _ hd pd dv hdv
  have hzv_ne : zv ≠ [] := chunkSequence_mem_ne_nil grid.depths _ hz pz zv hzv
  rw [← flatMap_singleton_eq_map]
  apply List.flatMap_congr
  intro wv hwv
  have hwv_ne : wv ≠ [] := chunkSequence_mem_ne_nil grid.wobs _ hw pw wv hwv
  rw [if_neg (by simp [hdv_ne, hzv_ne, hwv_ne])]
  rw [if_neg (by
    intro hcon
    rw [List.isEmpty_iff] at hcon
    have hlen := product3_length dv zv wv
    rw [hcon, List.length_nil] at hlen
    have l1 := List.length_pos.mpr hdv_ne
    have l2 := List.length_pos.mpr hzv_ne
    have l3 := List.length_pos.mpr hwv_ne
    have : 0 < dv.length * (zv.length * wv.length) := by positivity
    omega)]

/-- The countdown loop of `_compute_depth_chunk` never increases the
chunk and stops either at chunk 1 (or 0) or at a chunk whose combination
count fits the iteration bound. -/
theorem chunkLoop_spec (combos : ℕ) :
    ∀ c, chunkLoop combos c ≤ c ∧
      (chunkLoop combos c ≤ 1 ∨
        combos * chunkLoop combos c ≤ MAX_ITERATIONS_PER_RUN) := by
  intro c
  induction c with
  | zero => simp [chunkLoop]
  | succ n ih =>
    unfold chunkLoop
    by_cases h : combos * (n + 1) > MAX_ITERATIONS_PER_RUN ∧ n + 1 > 1
    · rw [if_pos h]
      exact ⟨le_trans ih.1 (Nat.le_succ n), ih.2⟩
    · rw [if_neg h]
      refine ⟨le_rfl, ?_⟩
      push_neg at h
      by_cases hgt : MAX_ITERATIONS_PER_RUN < combos * (n + 1)
      · exact Or.inl (h hgt)
      · exact Or.inr (le_of_not_lt hgt)

/-- When `density_count * foe_count` itself fits the bound, the chunk
size chosen by `_compute_depth_chunk` keeps every batch within the bound. -/
theorem computeDepthChunk_le (dc nd nf : ℕ) (hdc : 1 ≤ dc)
    (h1 : 1 ≤ nd * nf) (h2 : nd * nf ≤ MAX_ITERATIONS_PER_RUN) :
    nd * nf * computeDepthChunk dc nd nf ≤ MAX_ITERATIONS_PER_RUN := by
  unfold computeDepthChunk
  rw [if_neg (by omega), if_neg (by omega)]
  obtain ⟨hle, hor⟩ := chunkLoop_spec (nd * nf) dc
  rcases hor with hsm | hok
  · rw [Nat.max_eq_left hsm, Nat.mul_one]
    exact h2
  · rcases Nat.eq_zero_or_pos (chunkLoop (nd * nf) dc) with h0 | hpos
    · rw [h0]
      simpa using h2
    · rw [Nat.max_eq_right hpos]
      exact hok

/-- Per-mode batch-capacity bound for the RunPlan planner, conditional on
the density-times-force-on-end product fitting the bound. -/
theorem modePlans_combo_le (inputs : SensitivityInputs) (mode : Mode)
    (offset : ℕ) (hz : inputs.depths.isEmpty = false)
    (hpos : 1 ≤ inputs.pipe_fluid_densities.length * (modeFoe inputs mode).length)
    (hcap : inputs.pipe_fluid_densities.length * (modeFoe inputs mode).length ≤
      MAX_ITERATIONS_PER_RUN) :
    ∀ p ∈ modePlans inputs mode offset,
      p.combo_count ≤ MAX_ITERATIONS_PER_RUN := by
  intro p hp
  obtain ⟨-, hcombo⟩ := extendPlanAux_mode mode _ _ _ 0 offset p hp
  have hdep := extendPlanAux_depth_mem mode _ _ _ 0 offset p hp
  unfold modeChunks at hdep
  rw [if_neg (by simp [hz])] at hdep
  unfold chunk_depths at hdep
  have hlen := chunksAux_mem_length
    (computeDepthChunk inputs.depths.length inputs.pipe_fluid_densities.length
      (modeFoe inputs mode).length) inputs.depths.length inputs.depths
    p.depth_values hdep
  have hdcpos : 1 ≤ inputs.depths.length := by
    refine List.length_pos.mpr ?_
    intro hnil
    rw [hnil] at hz
    simp at hz
  have hbound := computeDepthChunk_le inputs.depths.length
    inputs.pipe_fluid_densities.length (modeFoe inputs mode).length hdcpos hpos hcap
  rw [hcombo]
  calc inputs.pipe_fluid_densities.length * (modeFoe inputs mode).length *
        p.depth_values.length
      ≤ inputs.pipe_fluid_densities.length * (modeFoe inputs mode).length *
        computeDepthChunk inputs.depths.length
          inputs.pipe_fluid_densities.length (modeFoe inputs mode).length :=
        Nat.mul_le_mul_left _ hlen
    _ ≤ MAX_ITERATIONS_PER_RUN := hbound

/-- **C1, counterexample.** With three densities, sixty-seven RIH
force-on-end values and a single depth, the density-times-force-on-end
product is 201, already over the 200-row iteration bound, and the depth
chunk size degrades to 1 as the spec describes; yet `_build_run_plan`
still emits a batch of 201 combinations, exceeding the capacity bound.
The claim's universal capacity bound is therefore false for the RunPlan
planner exactly in the case the claim singles out (density-times-wob
alone over the bound). -/
theorem C1_counterexample :
    ∃ p ∈ buildRunPlan
        { pipe_fluid_densities := [8, 10, 12]
          depths := [3500]
          stretch_foe_rih := (List.range 67).map fun n => (n : ℚ)
          stretch_foe_pooh := [] },
      MAX_ITERATIONS_PER_RUN < p.combo_count := by
  decide

/-- **C1, amended.** The capacity bound holds for the chunk-size-balancing
planner of `Automation.py` unconditionally: for every grid with non-empty
dimensions and every `max_batch_size ≥ 1`, every emitted batch has at most
`max_batch_size` combinations. For the RunPlan planner of
`orchestrator.py` (fixed bound `MAX_ITERATIONS_PER_RUN = 200`, only the
depth axis chunked) the bound holds only under the proviso that the
density-count times force-on-end-count product of each mode is itself
within the bound; the original claim's stronger clause (bound kept even
when that product alone exceeds it) is refuted by `C1_counterexample`. -/
theorem C1_batch_capacity_amended :
    (∀ (grid : ParameterGrid) (maxB : ℕ), 1 ≤ maxB →
      grid.densities ≠ [] → grid.depths ≠ [] → grid.wobs ≠ [] →
      ∀ b ∈ generateBatchesFromGrid grid maxB,
        b.combinations.length ≤ maxB) ∧
    (∀ inputs : SensitivityInputs,
      inputs.pipe_fluid_densities.length * inputs.stretch_foe_rih.length ≤
        MAX_ITERATIONS_PER_RUN →
      inputs.pipe_fluid_densities.length * inputs.stretch_foe_pooh.length ≤
        MAX_ITERATIONS_PER_RUN →
      ∀ p ∈ buildRunPlan inputs,
        p.combo_count ≤ MAX_ITERATIONS_PER_RUN) := by
  constructor
  · intro grid maxB hmax hd hz hw b hbmem
    obtain ⟨cd, cz, cw, pd, pz, pw, hb, heq⟩ :=
      generateBatches_eq grid maxB hmax hd hz hw
    rw [heq, List.mem_flatMap] at hbmem
    obtain ⟨dv, hdv, hbmem⟩ := hbmem
    rw [List.mem_flatMap] at hbmem
    obtain ⟨zv, hzv, hbmem⟩ := hbmem
    rw [List.mem_map] at hbmem
    obtain ⟨wv, hwv, rfl⟩ := hbmem
    have hld := chunkSequence_mem_length grid.densities cd dv hdv
    have hlz := chunkSequence_mem_length grid.depths cz zv hzv
    have hlw := chunkSequence_mem_length grid.wobs cw wv hwv
    show (product3 dv zv wv).length ≤ maxB
    rw [product3_length]
    calc dv.length * (zv.length * wv.length)
        ≤ cd * (cz * cw) :=
          Nat.mul_le_mul hld (Nat.mul_le_mul hlz hlw)
      _ = cd * cz * cw := by ring
      _ ≤ maxB := hb
  · intro inputs hrih hpooh p hp
    rw [buildRunPlan_eq] at hp
    rcases List.mem_append.mp hp with h | h
    · by_cases hr : rihEnabled inputs = true
      · rw [if_pos hr] at h
        obtain ⟨h1, h2, h3⟩ := rihEnabled_parts inputs hr
        refine modePlans_combo_le inputs Mode.RIH 0 h2 ?_ ?_ p h
        · have l1 : 0 < inputs.pipe_fluid_densities.length :=
            List.length_pos.mpr (by intro hnil; rw [hnil] at h1; simp at h1)
          have l2 : 0 < (modeFoe inputs Mode.RIH).length :=
            List.length_pos.mpr (by intro hnil; rw [hnil] at h3; simp at h3)
          exact Nat.mul_pos l1 l2
        · simpa [modeFoe] using hrih
      · rw [if_neg hr] at h
        simp at h
    · by_cases hpo : poohEnabled inputs = true
      · rw [if_pos hpo] at h
        obtain ⟨h1, h2, h3⟩ := poohEnabled_parts inputs hpo
        refine modePlans_combo_le inputs Mode.POOH _ h2 ?_ ?_ p h
        · have l1 : 0 < inputs.pipe_fluid_densities.length :=
            List.length_pos.mpr (by intro hnil; rw [hnil] at h1; simp at h1)
          have l2 : 0 < (modeFoe inputs Mode.POOH).length :=
            List.length_pos.mpr (by intro hnil; rw [hnil] at h3; simp at h3)
          exact Nat.mul_pos l1 l2
        · simpa [modeFoe] using hpooh
      · rw [if_neg hpo] at h
        simp at h

/-- Witness for C1 at the spec's constrained scenario (three densities,
two depths, two force-on-end values, `max_batch_size = 4`) and at the
same inputs for the RunPlan planner. -/
theorem C1_witness :
    (∀ b ∈ generateBatchesFromGrid
        { densities := [8, 10, 12], depths := [3500, 4000],
          wobs := [-1500, 0] } 4,
      b.combinations.length ≤ 4) ∧
    (∀ p ∈ buildRunPlan
        { pipe_fluid_densities := [8, 10, 12]
          depths := [3500, 4000]
          stretch_foe_rih := [0, -1500]
          stretch_foe_pooh := [0, -1500] },
      p.combo_count ≤ MAX_ITERATIONS_PER_RUN) :=
  ⟨C1_batch_capacity_amended.1
      { densities := [8, 10, 12], depths := [3500, 4000], wobs := [-1500, 0] } 4
      (by decide) (by decide) (by decide) (by decide),
   C1_batch_capacity_amended.2
      { pipe_fluid_densities := [8, 10, 12]
        depths := [3500, 4000]
        stretch_foe_rih := [0, -1500]
        stretch_foe_pooh := [0, -1500] }
      (by decide) (by decide)⟩

/-- A successful `subprocess.run` returns immediately with no back-off. -/
theorem runCmdAux_ok {R : Type} (attempts : ℕ → Except SubprocessFailure R)
    (a k : String) (i fuel : ℕ) (r : R) (h : attempts i = .ok r) :
    runCmdAux attempts a k i fuel = (.ok r, []) := by
  cases fuel with
  | zero =>
    unfold runCmdAux
    rw [h]
  | succ n =>
    unfold runCmdAux
    rw [h]

/-- A failure on the last allowed attempt raises the formatted error for
that (and only that) exception. -/
theorem runCmdAux_error_last {R : Type}
    (attempts : ℕ → Except SubprocessFailure R) (a k : String) (i : ℕ)
    (e : SubprocessFailure) (h : attempts i = .error e) :
    runCmdAux attempts a k i 1 =
      (.error (raiseSubprocessError a k e), []) := by
  show runCmdAux attempts a k i (0 + 1) = _
  simp only [runCmdAux, h]
  rfl

/-- A failure with attempts remaining sleeps `min(2.0, 0.5 * attempt)` and
retries with the next attempt index. -/
theorem runCmdAux_error_retry {R : Type}
    (attempts : ℕ → Except SubprocessFailure R) (a k : String) (i fuel : ℕ)
    (e : SubprocessFailure) (h : attempts i = .error e) (hf : fuel ≠ 0) :
    runCmdAux attempts a k i (fuel + 1) =
      ((runCmdAux attempts a k (i + 1) fuel).1,
        min 2 ((1 / 2 : ℚ) * (i + 1)) :: (runCmdAux attempts a k (i + 1) fuel).2) := by
  simp only [runCmdAux, h, if_neg hf]

/-- **C6, counterexample.** Two double-failure runs that differ only in
the first attempt's diagnostic text produce the identical raised error:
the error raised after both attempts fail is built from the second
exception alone (`_raise_subprocess_error` receives only the last `exc`),
so it cannot carry both attempts' diagnostic text as the claim states. -/
theorem C6_counterexample :
    (runAutomationCommand
        (fun i =>
          (Except.error
            (if i = 0 then SubprocessFailure.exit 1 "first diagnostic A" ""
             else SubprocessFailure.exit 1 "second diagnostic" "") :
            Except SubprocessFailure ℕ))
        "invoke" "calculate" 2 =
      runAutomationCommand
        (fun i =>
          (Except.error
            (if i = 0 then SubprocessFailure.exit 1 "first diagnostic B" ""
             else SubprocessFailure.exit 1 "second diagnostic" "") :
            Except SubprocessFailure ℕ))
        "invoke" "calculate" 2) ∧
    "first diagnostic A" ≠ "first diagnostic B" :=
  ⟨rfl, by decide⟩

/-- **C6, amended.** `_run_automation_command` with its default
`max_attempts = 2` retries exactly once on a transient failure with a
single linear back-off sleep of `min(2.0, 0.5 * 1) = 0.5` seconds: an
immediate success returns with no retry and no sleep; a failure followed
by a success returns the successful result with no error surfaced; a
failure on both attempts raises the error formatted by
`_raise_subprocess_error` from the action, the target key and the SECOND
attempt's exception only (not both attempts' diagnostics, which corrects
the original claim; see `C6_counterexample`). -/
theorem C6_bridge_retry_amended {R : Type}
    (attempts : ℕ → Except SubprocessFailure R) (action button_key : String) :
    (∀ r, attempts 0 = .ok r →
      runAutomationCommand attempts action button_key 2 = (.ok r, [])) ∧
    (∀ e r, attempts 0 = .error e → attempts 1 = .ok r →
      runAutomationCommand attempts action button_key 2 =
        (.ok r, [(1 / 2 : ℚ)])) ∧
    (∀ e1 e2, attempts 0 = .error e1 → attempts 1 = .error e2 →
      runAutomationCommand attempts action button_key 2 =
        (.error (raiseSubprocessError action button_key e2),
          [(1 / 2 : ℚ)])) := by
  refine ⟨?_, ?_, ?_⟩
  · intro r h0
    exact runCmdAux_ok attempts action button_key 0 2 r h0
  · intro e r h0 h1
    show runCmdAux attempts action button_key 0 (1 + 1) = _
    rw [runCmdAux_error_retry attempts action button_key 0 1 e h0 (by omega),
      runCmdAux_ok attempts action button_key 1 1 r h1]
    norm_num
  · intro e1 e2 h0 h1
    show runCmdAux attempts action button_key 0 (1 + 1) = _
    rw [runCmdAux_error_retry attempts action button_key 0 1 e1 h0 (by omega),
      runCmdAux_error_last attempts action button_key 1 e2 h1]
    norm_num

/-- Witness for C6: an operation that times out once and succeeds on the
second attempt returns the successful result after a single half-second
back-off. -/
theorem C6_witness :
    runAutomationCommand
      (fun i =>
        (if i = 0 then Except.error (SubprocessFailure.timeout 10 "slow" "")
         else Except.ok 42 : Except SubprocessFailure ℕ))
      "invoke" "calculate" 2 = (.ok 42, [(1 / 2 : ℚ)]) :=
  (C6_bridge_retry_amended
    (fun i =>
      (if i = 0 then Except.error (SubprocessFailure.timeout 10 "slow" "")
       else Except.ok 42 : Except SubprocessFailure ℕ))
    "invoke" "calculate").2.1
    (SubprocessFailure.timeout 10 "slow" "") 42 rfl rfl

/-- **C2.** For every grid with non-empty (and, per the grid invariant,
strictly deduplicated) density, depth and mode-specific force-on-end sets
and every `max_batch_size ≥ 1`, concatenating the combinations of the
planner's emitted batches in emission order yields exactly the full
cartesian product of the mode's three dimension sets: the concatenation is
a permutation of the product (no missing tuple, no extra tuple) and
contains no duplicate tuple. -/
theorem C2_batches_cover_cartesian_product (grid : ParameterGrid) (maxB : ℕ)
    (hmax : 1 ≤ maxB)
    (hd : grid.densities ≠ []) (hz : grid.depths ≠ []) (hw : grid.wobs ≠ [])
    (hnd : grid.densities.Nodup) (hnz : grid.depths.Nodup)
    (hnw : grid.wobs.Nodup) :
    (((generateBatchesFromGrid grid maxB).map PlannedBatch.combinations).flatten).Perm
        (product3 grid.densities grid.depths grid.wobs) ∧
      (((generateBatchesFromGrid grid maxB).map
          PlannedBatch.combinations).flatten).Nodup := by
  obtain ⟨cd, cz, cw, pd, pz, pw, hb, heq⟩ := generateBatches_eq grid maxB hmax hd hz hw
  have hperm :
      (((generateBatchesFromGrid grid maxB).map
          PlannedBatch.combinations).flatten).Perm
        (product3 grid.densities grid.depths grid.wobs) := by
    rw [heq]
    simp only [List.map_flatMap, List.map_map]
    have hcomp : ∀ dv zv : List ℚ,
        (PlannedBatch.combinations ∘ fun wv =>
          ({ density_values := dv, depth_values := zv, wob_values := wv,
             combinations := product3 dv zv wv } : PlannedBatch)) =
          fun wv => product3 dv zv wv := by
      intro dv zv
      rfl
    simp only [hcomp]
    simp only [flatten_flatMap]
    refine (cover_triple _ _ _).trans ?_
    rw [chunkSequence_flatten grid.densities cd pd,
      chunkSequence_flatten grid.depths cz pz,
      chunkSequence_flatten grid.wobs cw pw]
  exact ⟨hperm, hperm.nodup_iff.mpr (product3_nodup _ _ _ hnd hnz hnw)⟩

/-- Witness for C2 at the spec's constrained scenario: densities 8, 10,
12; depths 3500, 4000; force-on-end 0 and -1500; `max_batch_size = 4`. -/
theorem C2_witness :
    ((1 : ℕ) ≤ 4) ∧
      ((((generateBatchesFromGrid
            { densities := [8, 10, 12], depths := [3500, 4000],
              wobs := [-1500, 0] } 4).map PlannedBatch.combinations).flatten).Perm
          (product3 [8, 10, 12] [3500, 4000] [-1500, 0]) ∧
        (((generateBatchesFromGrid
            { densities := [8, 10, 12], depths := [3500, 4000],
              wobs := [-1500, 0] } 4).map
            PlannedBatch.combinations).flatten).Nodup) :=
  ⟨by decide,
   C2_batches_cover_cartesian_product
     { densities := [8, 10, 12], depths := [3500, 4000], wobs := [-1500, 0] } 4
     (by decide) (by decide) (by decide) (by decide) (by decide) (by decide)
     (by decide)⟩

/-- **C10.** For every sequence of input rows, each dimension list the Grid
Builder returns (densities, depths, and each mode's force-on-end values)
is sorted in strictly ascending numeric order. -/
theorem C10_grid_builder_strictly_ascending (rows : List SensitivityInputRow) :
    (SensitivityInputs.from_rows rows).pipe_fluid_densities.Sorted (· < ·) ∧
      (SensitivityInputs.from_rows rows).depths.Sorted (· < ·) ∧
      (SensitivityInputs.from_rows rows).stretch_foe_rih.Sorted (· < ·) ∧
      (SensitivityInputs.from_rows rows).stretch_foe_pooh.Sorted (· < ·) := by
  obtain ⟨n1, n2, n3, n4⟩ := from_rows_nodup rows
  rw [from_rows_densities, from_rows_depths, from_rows_rih, from_rows_pooh] at *
  exact ⟨sorted_lt_of_sorted_le_nodup _ (pySorted_sorted _) n1,
    sorted_lt_of_sorted_le_nodup _ (pySorted_sorted _) n2,
    sorted_lt_of_sorted_le_nodup _ (pySorted_sorted _) n3,
    sorted_lt_of_sorted_le_nodup _ (pySorted_sorted _) n4⟩

end Cerberus
